import Mathlib

/-!
Verification development for the robust focus manager
(`apps/desktop/src/lib/focus/focusManager.robust.svelte.ts`).

The registry is embedded shallowly:
* UI element handles are natural numbers.
* JavaScript `Map`s become association lists with first-match lookup,
  in-place replacement on `set` of an existing key, and order-preserving
  `delete` (mirroring `Map` insertion-order iteration semantics).
* The DOM is an external capability bundle (`Dom`): a parent pointer,
  a fuel bound on the depth of parent chains, and a visibility query.
  `Dom.contains` is the inclusive descendant test `Node.contains`.
* Focus/blur callback invocations are recorded as an event trace;
  callbacks are modelled by presence flags and the context data
  (element, logical id, payload) they would receive.
* `Date.now()` timestamps are supplied as an explicit `now` argument.
-/

/-- A logical id: a well-known name or an arbitrary caller string. -/
abbrev Focusable := String

/-- Registration options (`FocusableOptions`).  Callback fields are modelled
by presence flags; the payload is an opaque numeric token. -/
structure FocusableOptions where
  id : Focusable
  parentId : Option Focusable
  payload : Option Nat
  priority : Option Int
  tabIndex : Option Int
  disabled : Option Bool
  hasOnKeydown : Bool
  hasOnFocus : Bool
  hasOnBlur : Bool
  deriving DecidableEq, Repr

/-- Per-element metadata (`ElementMetadata`). -/
structure ElementMetadata where
  logicalId : Focusable
  parentElement : Option Nat
  children : List Nat
  registrationTime : Nat
  options : FocusableOptions
  deriving DecidableEq, Repr

/-- A deferred parent link (`PendingRelationship`). -/
structure PendingRelationship where
  childElement : Nat
  parentId : Focusable
  registrationTime : Nat
  deriving DecidableEq, Repr

/-- A recorded callback invocation together with the context fields the
handler receives (element, logical id, payload). -/
inductive FocusEvent where
  | blur (element : Nat) (logicalId : Focusable) (payload : Option Nat)
  | focus (element : Nat) (logicalId : Focusable) (payload : Option Nat)
  deriving DecidableEq, Repr

/-- First-match lookup in an association list (JS `Map.get`). -/
def mapGet {κ α : Type} [DecidableEq κ] (m : List (κ × α)) (k : κ) : Option α :=
  (m.find? (fun p => p.1 == k)).map Prod.snd

/-- JS `Map.set`: replace in place when the key is present, append otherwise. -/
def mapSet {κ α : Type} [DecidableEq κ] (m : List (κ × α)) (k : κ) (v : α) : List (κ × α) :=
  if (mapGet m k).isSome then m.map (fun p => if p.1 = k then (k, v) else p)
  else m ++ [(k, v)]

/-- JS `Map.delete`. -/
def mapDelete {κ α : Type} [DecidableEq κ] (m : List (κ × α)) (k : κ) : List (κ × α) :=
  m.filter (fun p => !decide (p.1 = k))

/-- The full manager state: element registry, logical index, pending
relationship queue, current (active) element, and the callback trace. -/
structure FMState where
  elementRegistry : List (Nat × ElementMetadata)
  logicalIndex : List (Focusable × List Nat)
  pendingRelationships : List PendingRelationship
  currentElement : Option Nat
  events : List FocusEvent
  deriving DecidableEq, Repr

/-- The empty manager state. -/
def initialState : FMState := ⟨[], [], [], none, []⟩

/-- The DOM capabilities the registry relies on: a parent pointer, a bound
on the depth of parent chains (the DOM is a finite tree), and the
on-screen visibility query backing `getBoundingClientRect`. -/
structure Dom where
  parentOf : Nat → Option Nat
  fuel : Nat
  visible : Nat → Bool

/-- The chain of proper ancestors of an element, nearest first, obtained by
following `parentElement` pointers (bounded by the tree-depth fuel). -/
def domAncestors (parentOf : Nat → Option Nat) : Nat → Nat → List Nat
  | 0, _ => []
  | f + 1, e =>
    match parentOf e with
    | none => []
    | some p => p :: domAncestors parentOf f p

/-- Ancestor chain of an element under a given DOM. -/
def Dom.ancestorChain (d : Dom) (e : Nat) : List Nat :=
  domAncestors d.parentOf d.fuel e

/-- `Node.contains`: inclusive descendant test. -/
def Dom.contains (d : Dom) (a b : Nat) : Bool :=
  decide (a = b ∨ a ∈ d.ancestorChain b)

/-- `isValidParentChild`: the candidate child must be a DOM descendant of
the parent. -/
def isValidParentChild (d : Dom) (parentElement childElement : Nat) : Bool :=
  d.contains parentElement childElement

/-- Replace the `parentElement` field of a metadata record. -/
def setParentElement (m : ElementMetadata) (p : Option Nat) : ElementMetadata :=
  ⟨m.logicalId, p, m.children, m.registrationTime, m.options⟩

/-- Replace the `children` field of a metadata record. -/
def setChildren (m : ElementMetadata) (cs : List Nat) : ElementMetadata :=
  ⟨m.logicalId, m.parentElement, cs, m.registrationTime, m.options⟩

/-- `addToLogicalIndex`: push the element into the id's bucket unless already
present.  (The source asserts the bucket exists; an absent bucket is a no-op
here because every call site has just created it.) -/
def addToLogicalIndex (li : List (Focusable × List Nat)) (logicalId : Focusable)
    (element : Nat) : List (Focusable × List Nat) :=
  match mapGet li logicalId with
  | some arr => if element ∈ arr then li else mapSet li logicalId (arr ++ [element])
  | none => li

/-- `removeFromLogicalIndex`: splice out the first occurrence of the element. -/
def removeFromLogicalIndex (li : List (Focusable × List Nat)) (logicalId : Focusable)
    (element : Nat) : List (Focusable × List Nat) :=
  match mapGet li logicalId with
  | some arr => mapSet li logicalId (arr.erase element)
  | none => li

/-- `addChild`: append to the children list unless already present. -/
def addChild (parentMeta : ElementMetadata) (childElement : Nat) : ElementMetadata :=
  if childElement ∈ parentMeta.children then parentMeta
  else setChildren parentMeta (parentMeta.children ++ [childElement])

/-- `removeChild`: splice out the first occurrence. -/
def removeChild (parentMeta : ElementMetadata) (childElement : Nat) : ElementMetadata :=
  setChildren parentMeta (parentMeta.children.erase childElement)

/-- One iteration of the orphaning loop in `unregisterElement`: clear a
child's `parentElement` when the child is registered. -/
def orphanStep (r : List (Nat × ElementMetadata)) (c : Nat) : List (Nat × ElementMetadata) :=
  match mapGet r c with
  | some childMeta => mapSet r c (setParentElement childMeta none)
  | none => r

/-- `unregisterElement`: remove one element's registration.  Detaches it from
the logical index (dropping an emptied bucket), from its parent's children
list, orphans its own children (their `parentElement` becomes `none`), and
deletes it from the registry.  The pending queue is untouched.
The children list walked by the orphaning loop is read from the live
registry after the parent splice, mirroring the aliasing in the source. -/
def unregisterElement (s : FMState) (element : Nat) : FMState :=
  match mapGet s.elementRegistry element with
  | none => s
  | some existing =>
    let li1 := removeFromLogicalIndex s.logicalIndex existing.logicalId element
    let li2 :=
      match mapGet li1 existing.logicalId with
      | some arr => if arr.isEmpty then mapDelete li1 existing.logicalId else li1
      | none => li1
    let reg1 :=
      match existing.parentElement with
      | some pe =>
        match mapGet s.elementRegistry pe with
        | some parentMeta => mapSet s.elementRegistry pe (removeChild parentMeta element)
        | none => s.elementRegistry
      | none => s.elementRegistry
    let kids := match mapGet reg1 element with | some m => m.children | none => []
    let reg2 := kids.foldl orphanStep reg1
    ⟨mapDelete reg2 element, li2, s.pendingRelationships, s.currentElement, s.events⟩

/-- One iteration of the best-candidate scan in `findRegisteredParent`:
a registered candidate with a strictly larger registration time than the
best seen so far replaces it. -/
def frpStep (s : FMState) (best : Option Nat × Nat) (candidate : Nat) : Option Nat × Nat :=
  match mapGet s.elementRegistry candidate with
  | some meta =>
    if best.2 < meta.registrationTime then (some candidate, meta.registrationTime)
    else best
  | none => best

/-- `findRegisteredParent`: among the id's bucket, the registered candidate
with the strictly largest registration time seen so far wins (initial best
time 0, strict comparison). -/
def findRegisteredParent (s : FMState) (parentId : Focusable) : Option Nat :=
  match mapGet s.logicalIndex parentId with
  | none => none
  | some candidates =>
    if candidates.isEmpty then none
    else (candidates.foldl (frpStep s) ((none : Option Nat), 0)).1

/-- `findParentInDOM`: walk the DOM ancestor chain for a registered element
whose logical id matches. -/
def findParentInDOM (s : FMState) (d : Dom) (element : Nat) (parentId : Focusable) :
    Option Nat :=
  (d.ancestorChain element).find? (fun current =>
    match mapGet s.elementRegistry current with
    | some metadata => metadata.logicalId == parentId
    | none => false)

/-- One step of `resolvePendingRelationships`: a pending entry whose declared
parent id matches, whose child is registered, and whose child the new element
contains, is linked and dropped; every other entry is kept. -/
def resolvePendingStep (d : Dom) (newLogicalId : Focusable) (newElement : Nat)
    (acc : List (Nat × ElementMetadata) × List PendingRelationship)
    (pending : PendingRelationship) :
    List (Nat × ElementMetadata) × List PendingRelationship :=
  if pending.parentId == newLogicalId then
    match mapGet acc.1 pending.childElement with
    | some childMeta =>
      if isValidParentChild d newElement pending.childElement then
        let reg1 := mapSet acc.1 pending.childElement
          (setParentElement childMeta (some newElement))
        let reg2 :=
          match mapGet reg1 newElement with
          | some parentMeta => mapSet reg1 newElement (addChild parentMeta pending.childElement)
          | none => reg1
        (reg2, acc.2)
      else (acc.1, acc.2 ++ [pending])
    | none => (acc.1, acc.2 ++ [pending])
  else (acc.1, acc.2 ++ [pending])

/-- `resolvePendingRelationships` after an element registers. -/
def resolvePendingRelationships (d : Dom) (s : FMState) (newLogicalId : Focusable)
    (newElement : Nat) : FMState :=
  let acc := s.pendingRelationships.foldl
    (resolvePendingStep d newLogicalId newElement) (s.elementRegistry, [])
  ⟨acc.1, s.logicalIndex, acc.2, s.currentElement, s.events⟩

/-- JS truthiness of `options.parentId` (`undefined`, `null` and the empty
string are falsy). -/
def hasParentId (options : FocusableOptions) : Bool :=
  match options.parentId with
  | some pid => pid != ""
  | none => false

/-- The three-strategy parent resolution of `doRegister`: registered-parent
lookup, then DOM ancestor search, else none (to be deferred). -/
def drParent (d : Dom) (options : FocusableOptions) (element : Nat) (s0 : FMState) :
    Option Nat :=
  if hasParentId options then
    match findRegisteredParent s0 (options.parentId.getD "") with
    | some p => some p
    | none => findParentInDOM s0 d element (options.parentId.getD "")
  else none

/-- `doRegister` up to (not including) the pending-resolution pass: remove
any existing registration, resolve the parent, defer the relationship when
unresolved, insert into registry and logical index, link to the parent. -/
def doRegisterMid (d : Dom) (now : Nat) (options : FocusableOptions) (element : Nat)
    (s : FMState) : FMState :=
  let s0 := unregisterElement s element
  let parentElement : Option Nat := drParent d options element s0
  let pendings1 :=
    if hasParentId options && parentElement.isNone then
      s0.pendingRelationships ++ [⟨element, options.parentId.getD "", now⟩]
    else s0.pendingRelationships
  let metadata : ElementMetadata := ⟨options.id, parentElement, [], now, options⟩
  let reg1 := mapSet s0.elementRegistry element metadata
  let li1 :=
    match mapGet s0.logicalIndex options.id with
    | some _ => s0.logicalIndex
    | none => s0.logicalIndex ++ [(options.id, [])]
  let li2 := addToLogicalIndex li1 options.id element
  let reg2 :=
    match parentElement with
    | some pe =>
      match mapGet reg1 pe with
      | some parentMeta => mapSet reg1 pe (addChild parentMeta element)
      | none => reg1
    | none => reg1
  ⟨reg2, li2, pendings1, s0.currentElement, s0.events⟩

/-- `doRegister`: the registration pass, then the pending-resolution pass
against the new element, then `onFocus` when the element is already current. -/
def doRegister (d : Dom) (now : Nat) (options : FocusableOptions) (element : Nat)
    (s : FMState) : FMState :=
  let s2 := resolvePendingRelationships d (doRegisterMid d now options element s)
    options.id element
  if options.hasOnFocus && s2.currentElement == some element then
    ⟨s2.elementRegistry, s2.logicalIndex, s2.pendingRelationships, s2.currentElement,
      s2.events ++ [FocusEvent.focus element options.id options.payload]⟩
  else s2

/-- `register`, primary overload (full options object). -/
def register (d : Dom) (now : Nat) (options : FocusableOptions) (element : Nat)
    (s : FMState) : FMState :=
  doRegister d now options element s

/-- `register`, legacy overload: only the logical id and parent id are set. -/
def registerLegacy (d : Dom) (now : Nat) (logicalId : Focusable)
    (parentId : Option Focusable) (element : Nat) (s : FMState) : FMState :=
  doRegister d now ⟨logicalId, parentId, none, none, none, none, false, false, false⟩ element s

/-- `unregister`: remove one element, or every element under a logical id;
then filter the pending queue and clear the current element when it was
removed or carried the removed logical id. -/
def unregister (logicalId : Focusable) (elementOpt : Option Nat) (s : FMState) : FMState :=
  let s1 :=
    match elementOpt with
    | some element => unregisterElement s element
    | none =>
      match mapGet s.logicalIndex logicalId with
      | some elements => elements.foldl (fun st elem => unregisterElement st elem) s
      | none => s
  let pendings2 := s1.pendingRelationships.filter (fun p =>
    p.parentId != logicalId && (elementOpt.isNone || !(some p.childElement == elementOpt)))
  let current2 :=
    match s1.currentElement with
    | none => none
    | some ce =>
      match mapGet s1.elementRegistry ce with
      | none => none
      | some currentMeta =>
        if (match elementOpt with | some e => ce == e | none => false)
            || (elementOpt.isNone && currentMeta.logicalId == logicalId) then none
        else some ce
  ⟨s1.elementRegistry, s1.logicalIndex, pendings2, current2, s1.events⟩

/-- `scoreElement`: the candidate score. -/
def scoreElement (d : Dom) (s : FMState) (element : Nat) : Rat :=
  match mapGet s.elementRegistry element with
  | none => 0
  | some meta =>
    if meta.options.disabled.getD false then -1000
    else
      ((meta.options.priority.getD 0 : Int) : Rat) * 1000
        + (if d.visible element then 100 else 0)
        + (meta.registrationTime : Rat) / 1000000

/-- `selectBestCandidate`: scan for the strictly best score; the first
candidate seeds the scan, so the earliest candidate wins ties. -/
def selectBestCandidate (d : Dom) (s : FMState) (candidates : List Nat) : Option Nat :=
  match candidates with
  | [] => none
  | c0 :: _ =>
    some ((candidates.foldl (fun best candidate =>
      let score := scoreElement d s candidate
      if best.2 < score then (candidate, score) else best)
      (c0, scoreElement d s c0)).1)

/-- The argument to `setActive`: a concrete element or a logical id. -/
inductive FocusTarget where
  | elem (element : Nat)
  | id (logicalId : Focusable)

/-- `setActive`: resolve the target (best candidate for a logical id), fire
`onBlur` on the previous current element, swap, fire `onFocus`. -/
def setActive (d : Dom) (target : FocusTarget) (s : FMState) : FMState :=
  let targetOpt : Option Nat :=
    match target with
    | .elem e => some e
    | .id lid =>
      match mapGet s.logicalIndex lid with
      | some candidates =>
        if candidates.isEmpty then none else selectBestCandidate d s candidates
      | none => none
  match targetOpt with
  | none => s
  | some targetElement =>
    match mapGet s.elementRegistry targetElement with
    | none => s
    | some newMeta =>
      let blurEvents :=
        match s.currentElement with
        | some previousElement =>
          match mapGet s.elementRegistry previousElement with
          | some previousMeta =>
            if previousMeta.options.hasOnBlur then
              [FocusEvent.blur previousElement previousMeta.logicalId
                previousMeta.options.payload]
            else []
          | none => []
        | none => []
      let focusEvents :=
        if newMeta.options.hasOnFocus then
          [FocusEvent.focus targetElement newMeta.logicalId newMeta.options.payload]
        else []
      ⟨s.elementRegistry, s.logicalIndex, s.pendingRelationships, some targetElement,
        s.events ++ blurEvents ++ focusEvents⟩

/-- `tryResolveOrphan`: link a parentless element to its nearest registered
DOM ancestor, regardless of any declared parent id. -/
def tryResolveOrphan (d : Dom) (s : FMState) (element : Nat) : FMState :=
  match mapGet s.elementRegistry element with
  | none => s
  | some metadata =>
    match (d.ancestorChain element).find? (fun a => (mapGet s.elementRegistry a).isSome) with
    | none => s
    | some ancestor =>
      let reg1 := mapSet s.elementRegistry element (setParentElement metadata (some ancestor))
      let reg2 :=
        match mapGet reg1 ancestor with
        | some parentMeta => mapSet reg1 ancestor (addChild parentMeta element)
        | none => reg1
      ⟨reg2, s.logicalIndex, s.pendingRelationships, s.currentElement, s.events⟩

/-- `ensureRelationships`: lazy resolution before navigation. -/
def ensureRelationships (d : Dom) (s : FMState) (element : Nat) : FMState :=
  match mapGet s.elementRegistry element with
  | none => s
  | some metadata =>
    if metadata.parentElement.isNone && !s.pendingRelationships.isEmpty then
      tryResolveOrphan d s element
    else s

/-- The tab index the sibling comparator reads (default 0). -/
def tabIndexOf (s : FMState) (element : Nat) : Int :=
  match mapGet s.elementRegistry element with
  | some meta => meta.options.tabIndex.getD 0
  | none => 0

/-- The sibling comparator's order: tab index ascending, position in the
unfiltered sibling list (registration order) as secondary key. -/
def siblingOrder (s : FMState) (siblings : List Nat) (a b : Nat) : Prop :=
  tabIndexOf s a < tabIndexOf s b ∨
    (tabIndexOf s a = tabIndexOf s b ∧ siblings.indexOf a ≤ siblings.indexOf b)

instance siblingOrderDec (s : FMState) (siblings : List Nat) :
    DecidableRel (siblingOrder s siblings) := fun _ _ => by
  unfold siblingOrder; infer_instance

/-- `sortSiblingsByTabOrder`: drop disabled (or unregistered) siblings, then
sort by the comparator.  The comparator is a total order on the filtered
elements (their positions in the original list are distinct), so the sorted
result is unique and insertion sort reproduces it. -/
def sortSiblingsByTabOrder (s : FMState) (siblings : List Nat) : List Nat :=
  let filtered := siblings.filter (fun sibling =>
    match mapGet s.elementRegistry sibling with
    | some meta => !(meta.options.disabled.getD false)
    | none => false)
  List.insertionSort (siblingOrder s siblings) filtered

/-- `focusSibling`: move to the adjacent enabled sibling, wrapping circularly.
The JS index arithmetic `(i - 1 + n) % n` is written `(i + n - 1) % n`. -/
def focusSibling (d : Dom) (forward : Bool) (s : FMState) : FMState :=
  match s.currentElement with
  | none => s
  | some currentElement =>
    let s1 := ensureRelationships d s currentElement
    match mapGet s1.elementRegistry currentElement with
    | none => s1
    | some metadata =>
      match metadata.parentElement with
      | none => s1
      | some parentElement =>
        match mapGet s1.elementRegistry parentElement with
        | none => s1
        | some parentMeta =>
          let siblings := sortSiblingsByTabOrder s1 parentMeta.children
          if siblings.isEmpty then s1
          else if currentElement ∈ siblings then
            let currentIndex := siblings.indexOf currentElement
            let n := siblings.length
            let nextIndex := if forward then (currentIndex + 1) % n else (currentIndex + n - 1) % n
            setActive d (FocusTarget.elem (siblings.getD nextIndex 0)) s1
          else s1

/-- `focusParent`: hop to the resolved parent. -/
def focusParent (d : Dom) (s : FMState) : FMState :=
  match s.currentElement with
  | none => s
  | some currentElement =>
    let s1 := ensureRelationships d s currentElement
    match mapGet s1.elementRegistry currentElement with
    | none => s1
    | some metadata =>
      match metadata.parentElement with
      | none => s1
      | some parentElement => setActive d (FocusTarget.elem parentElement) s1

/-- `focusFirstChild`: hop to the first child in registration order. -/
def focusFirstChild (d : Dom) (s : FMState) : FMState :=
  match s.currentElement with
  | none => s
  | some currentElement =>
    let s1 := ensureRelationships d s currentElement
    match mapGet s1.elementRegistry currentElement with
    | none => s1
    | some metadata =>
      match metadata.children with
      | [] => s1
      | firstChild :: _ => setActive d (FocusTarget.elem firstChild) s1

/-- Is the declared parent id already resolved for the child: its
`parentElement` points at a registered element carrying that logical id. -/
def resolvedFor (s : FMState) (child : Nat) (pid : Focusable) : Bool :=
  match mapGet s.elementRegistry child with
  | none => false
  | some cm =>
    match cm.parentElement with
    | none => false
    | some pe =>
      match mapGet s.elementRegistry pe with
      | none => false
      | some pm => pm.logicalId == pid

/-- First half of the spec's pending-queue invariant: every pending entry's
child is still a key of the element registry. -/
def childRegisteredB (s : FMState) : Bool :=
  s.pendingRelationships.all (fun p => (mapGet s.elementRegistry p.childElement).isSome)

/-- The spec's full pending-queue invariant: every pending entry has a
registered child whose declared parent id is not yet resolved. -/
def pendingInvB (s : FMState) : Bool :=
  s.pendingRelationships.all (fun p =>
    (mapGet s.elementRegistry p.childElement).isSome
      && !(resolvedFor s p.childElement p.parentId))

/-! ### Association-list lemmas -/

theorem mapGet_nil {κ α : Type} [DecidableEq κ] (k : κ) :
    mapGet ([] : List (κ × α)) k = none := rfl

theorem mapGet_cons {κ α : Type} [DecidableEq κ] (a : κ) (b : α) (m : List (κ × α)) (k : κ) :
    mapGet ((a, b) :: m) k = if a = k then some b else mapGet m k := by
  by_cases h : a = k <;> simp [mapGet, List.find?_cons, h]

theorem mapGet_map_ne {κ α : Type} [DecidableEq κ] (m : List (κ × α)) (k : κ) (v : α)
    (k' : κ) (h : k' ≠ k) :
    mapGet (m.map (fun p => if p.1 = k then (k, v) else p)) k' = mapGet m k' := by
  induction m with
  | nil => rfl
  | cons hd tl ih =>
    obtain ⟨a, b⟩ := hd
    by_cases hak : a = k
    · subst hak
      have hne : ¬(a = k') := fun hh => h hh.symm
      simp [List.map_cons, mapGet_cons, hne, ih]
    · by_cases hak' : a = k'
      · subst hak'
        simp [List.map_cons, hak, mapGet_cons]
      · simp [List.map_cons, hak, mapGet_cons, hak', ih]

theorem mapGet_map_self {κ α : Type} [DecidableEq κ] (m : List (κ × α)) (k : κ) (v : α)
    (h : (mapGet m k).isSome = true) :
    mapGet (m.map (fun p => if p.1 = k then (k, v) else p)) k = some v := by
  induction m with
  | nil => simp [mapGet_nil] at h
  | cons hd tl ih =>
    obtain ⟨a, b⟩ := hd
    by_cases hak : a = k
    · subst hak
      simp [List.map_cons, mapGet_cons]
    · have htl : (mapGet tl k).isSome = true := by
        simpa [mapGet_cons, hak] using h
      simp [List.map_cons, hak, mapGet_cons, ih htl]

theorem mapGet_append_absent {κ α : Type} [DecidableEq κ] (m : List (κ × α)) (k : κ) (v : α)
    (k' : κ) (h : mapGet m k = none) :
    mapGet (m ++ [(k, v)]) k' = if k' = k then some v else mapGet m k' := by
  induction m with
  | nil =>
    by_cases hk : k' = k
    · simp [mapGet_cons, hk]
    · have : ¬(k = k') := fun hh => hk hh.symm
      simp [mapGet_cons, this, hk, mapGet_nil]
  | cons hd tl ih =>
    obtain ⟨a, b⟩ := hd
    have hak : ¬(a = k) := by
      intro hh
      simp [mapGet_cons, hh] at h
    have htl : mapGet tl k = none := by
      simpa [mapGet_cons, hak] using h
    by_cases hak' : a = k'
    · have hkk : ¬(k' = k) := fun hh => hak (hak'.trans hh)
      simp [List.cons_append, mapGet_cons, hak', hkk]
    · simp [List.cons_append, mapGet_cons, hak', ih htl]

theorem mapGet_mapSet {κ α : Type} [DecidableEq κ] (m : List (κ × α)) (k : κ) (v : α)
    (k' : κ) : mapGet (mapSet m k v) k' = if k' = k then some v else mapGet m k' := by
  unfold mapSet
  by_cases hs : (mapGet m k).isSome = true
  · simp only [hs, if_true]
    by_cases hk : k' = k
    · subst hk
      simp [mapGet_map_self m k' v hs]
    · simp [hk, mapGet_map_ne m k v k' hk]
  · have hn : mapGet m k = none := by
      cases hh : mapGet m k
      · rfl
      · rw [hh] at hs
        simp at hs
    simp only [hn, Option.isSome_none, Bool.false_eq_true, if_false]
    exact mapGet_append_absent m k v k' hn

theorem mapGet_mapDelete {κ α : Type} [DecidableEq κ] (m : List (κ × α)) (k k' : κ) :
    mapGet (mapDelete m k) k' = if k' = k then none else mapGet m k' := by
  unfold mapDelete
  induction m with
  | nil => by_cases h : k' = k <;> simp [mapGet_nil, h]
  | cons hd tl ih =>
    obtain ⟨a, b⟩ := hd
    by_cases hak : a = k
    · subst hak
      by_cases h : k' = a
      · subst h
        simp [List.filter_cons, ih]
      · have : ¬(a = k') := fun hh => h hh.symm
        simp [List.filter_cons, mapGet_cons, h, this, ih]
    · by_cases hak' : a = k'
      · subst hak'
        have hne : ¬(a = k) := hak
        simp [List.filter_cons, hne, mapGet_cons, ih]
      · simp [List.filter_cons, hak, mapGet_cons, hak', ih]

/-! ### unregisterElement characterization -/

theorem orphanFold_lookup : ∀ (kids : List Nat) (reg : List (Nat × ElementMetadata)) (x : Nat),
    mapGet (kids.foldl orphanStep reg) x
      = (mapGet reg x).map (fun m => if x ∈ kids then setParentElement m none else m) := by
  intro kids
  induction kids with
  | nil =>
    intro reg x
    cases h : mapGet reg x <;> simp [h]
  | cons c rest ih =>
    intro reg x
    rw [List.foldl_cons]
    cases hc : mapGet reg c with
    | none =>
      have hstep : orphanStep reg c = reg := by simp [orphanStep, hc]
      rw [hstep, ih]
      by_cases hxc : x = c
      · subst hxc
        simp [hc]
      · cases hx : mapGet reg x
        · simp
        · simp [List.mem_cons, hxc]
    | some cm =>
      have hstep : orphanStep reg c = mapSet reg c (setParentElement cm none) := by
        simp [orphanStep, hc]
      rw [hstep, ih]
      by_cases hxc : x = c
      · subst hxc
        simp only [mapGet_mapSet, if_pos rfl, hc, Option.map_some']
        by_cases hmem : x ∈ rest <;> simp [hmem, setParentElement]
      · rw [mapGet_mapSet]
        simp only [hxc, if_false]
        cases hx : mapGet reg x
        · simp
        · simp [List.mem_cons, hxc]

/-- The children list the orphaning loop walks: when the removed element was
its own parent, the parent splice went through its own metadata first. -/
def ueKids (me : ElementMetadata) (e : Nat) : List Nat :=
  if me.parentElement = some e then (removeChild me e).children else me.children

/-- The per-entry transformation `unregisterElement` applies to every
surviving registry entry. -/
def ueTransform (me : ElementMetadata) (e : Nat) (x : Nat) (m : ElementMetadata) :
    ElementMetadata :=
  let m1 := if me.parentElement = some x then removeChild m e else m
  if x ∈ ueKids me e then setParentElement m1 none else m1

theorem unregisterElement_not_registered (s : FMState) (e : Nat)
    (h : mapGet s.elementRegistry e = none) : unregisterElement s e = s := by
  simp [unregisterElement, h]

theorem unregisterElement_pendings (s : FMState) (e : Nat) :
    (unregisterElement s e).pendingRelationships = s.pendingRelationships := by
  cases h : mapGet s.elementRegistry e <;> simp [unregisterElement, h]

theorem unregisterElement_current (s : FMState) (e : Nat) :
    (unregisterElement s e).currentElement = s.currentElement := by
  cases h : mapGet s.elementRegistry e <;> simp [unregisterElement, h]

theorem unregisterElement_events (s : FMState) (e : Nat) :
    (unregisterElement s e).events = s.events := by
  cases h : mapGet s.elementRegistry e <;> simp [unregisterElement, h]

theorem unregisterElement_lookup_self (s : FMState) (e : Nat) :
    mapGet (unregisterElement s e).elementRegistry e = none := by
  cases h : mapGet s.elementRegistry e
  · simp [unregisterElement, h]
  · simp [unregisterElement, h, mapGet_mapDelete]

theorem unregisterElement_lookup (s : FMState) (e : Nat) (me : ElementMetadata)
    (hme : mapGet s.elementRegistry e = some me) (x : Nat) (hx : x ≠ e) :
    mapGet (unregisterElement s e).elementRegistry x =
      (mapGet s.elementRegistry x).map (ueTransform me e x) := by
  cases hpe : me.parentElement with
  | none =>
    unfold unregisterElement
    simp only [hme, hpe, orphanFold_lookup, mapGet_mapDelete]
    rw [if_neg hx]
    cases hmx : mapGet s.elementRegistry x <;>
      simp [ueTransform, ueKids, hpe, hmx]
  | some pe =>
    by_cases hpee : pe = e
    · subst hpee
      unfold unregisterElement
      simp only [hme, hpe, orphanFold_lookup, mapGet_mapDelete, mapGet_mapSet]
      rw [if_neg hx]
      simp only [if_pos rfl, if_neg hx]
      have hnx : ¬(me.parentElement = some x) := by
        rw [hpe]
        intro hh
        injection hh with hh2
        exact hx hh2.symm
      have hpx : ¬(pe = x) := fun hh => hx hh.symm
      cases hmx : mapGet s.elementRegistry x <;>
        simp [ueTransform, ueKids, hpe, hnx, hmx, hpx]
    · cases hpp : mapGet s.elementRegistry pe with
      | none =>
        unfold unregisterElement
        simp only [hme, hpe, hpp, orphanFold_lookup, mapGet_mapDelete]
        rw [if_neg hx]
        by_cases hxpe : x = pe
        · subst hxpe
          simp [hpp, ueTransform]
        · have hnx : ¬(me.parentElement = some x) := by
            rw [hpe]
            intro hh
            injection hh with hh2
            exact hxpe hh2.symm
          have hpx : ¬(pe = x) := fun hh => hxpe hh.symm
          cases hmx : mapGet s.elementRegistry x <;>
            simp [ueTransform, ueKids, hpe, hpee, hnx, hmx, hpx]
      | some pm =>
        unfold unregisterElement
        simp only [hme, hpe, hpp, orphanFold_lookup, mapGet_mapDelete, mapGet_mapSet]
        rw [if_neg hx]
        have hepe : ¬(e = pe) := fun hh => hpee hh.symm
        simp only [hepe, if_false, hme]
        by_cases hxpe : x = pe
        · subst hxpe
          simp only [if_pos rfl, hpp, Option.map_some']
          have hmx2 : me.parentElement = some x := hpe
          simp [ueTransform, ueKids, hpe, hpee, hmx2]
        · simp only [hxpe, if_false]
          have hnx : ¬(me.parentElement = some x) := by
            rw [hpe]
            intro hh
            injection hh with hh2
            exact hxpe hh2.symm
          have hpx : ¬(pe = x) := fun hh => hxpe hh.symm
          cases hmx : mapGet s.elementRegistry x <;>
            simp [ueTransform, ueKids, hpe, hpee, hnx, hmx, hpx]

/-! ### resolvePendingRelationships characterization -/

/-- The registry effect of resolving one pending entry: point the child's
`parentElement` at the new element and record the child in its children. -/
def linkReg (newElement : Nat) (reg : List (Nat × ElementMetadata)) (child : Nat) :
    List (Nat × ElementMetadata) :=
  match mapGet reg child with
  | some childMeta =>
    let reg1 := mapSet reg child (setParentElement childMeta (some newElement))
    match mapGet reg1 newElement with
    | some parentMeta => mapSet reg1 newElement (addChild parentMeta child)
    | none => reg1
  | none => reg

/-- Whether a pending entry is resolved against a newly registered element:
matching declared parent id, registered child, containment. -/
def resolvesB (d : Dom) (newLogicalId : Focusable) (newElement : Nat)
    (reg : List (Nat × ElementMetadata)) (p : PendingRelationship) : Bool :=
  (p.parentId == newLogicalId) && (mapGet reg p.childElement).isSome
    && isValidParentChild d newElement p.childElement

theorem resolvePendingStep_char (d : Dom) (nid : Focusable) (ne : Nat)
    (acc : List (Nat × ElementMetadata) × List PendingRelationship)
    (p : PendingRelationship) :
    resolvePendingStep d nid ne acc p =
      if resolvesB d nid ne acc.1 p then (linkReg ne acc.1 p.childElement, acc.2)
      else (acc.1, acc.2 ++ [p]) := by
  unfold resolvePendingStep resolvesB linkReg
  by_cases h1 : p.parentId == nid
  · cases h2 : mapGet acc.1 p.childElement with
    | none => simp [h1, h2]
    | some cm =>
      by_cases h3 : isValidParentChild d ne p.childElement <;> simp [h1, h2, h3]
  · simp [h1]

theorem addChild_mem_self (m : ElementMetadata) (c : Nat) : c ∈ (addChild m c).children := by
  by_cases h : c ∈ m.children
  · simp [addChild, h]
  · simp [addChild, h, setChildren]

theorem addChild_children_superset (m : ElementMetadata) (c q : Nat)
    (hq : q ∈ m.children) : q ∈ (addChild m c).children := by
  by_cases h : c ∈ m.children
  · simpa [addChild, h]
  · simp [addChild, h, setChildren]
    exact Or.inl hq

/-- The metadata fields `resolvePendingRelationships` never changes. -/
def sameCore (m m' : ElementMetadata) : Prop :=
  m'.logicalId = m.logicalId ∧ m'.registrationTime = m.registrationTime ∧
    m'.options = m.options

theorem sameCore_refl (m : ElementMetadata) : sameCore m m := ⟨rfl, rfl, rfl⟩

theorem sameCore_trans {a b c : ElementMetadata} (h1 : sameCore a b) (h2 : sameCore b c) :
    sameCore a c :=
  ⟨h2.1.trans h1.1, h2.2.1.trans h1.2.1, h2.2.2.trans h1.2.2⟩

theorem sameCore_setParentElement (m : ElementMetadata) (p : Option Nat) :
    sameCore m (setParentElement m p) := ⟨rfl, rfl, rfl⟩

theorem sameCore_addChild (m : ElementMetadata) (c : Nat) :
    sameCore m (addChild m c) := by
  by_cases h : c ∈ m.children <;> simp [addChild, h, setChildren, sameCore]

theorem linkReg_eq_none (ne : Nat) (reg : List (Nat × ElementMetadata)) (c : Nat)
    (hc : mapGet reg c = none) : linkReg ne reg c = reg := by
  simp [linkReg, hc]

theorem linkReg_some_none (ne : Nat) (reg : List (Nat × ElementMetadata)) (c : Nat)
    (cm : ElementMetadata) (hc : mapGet reg c = some cm)
    (hpn : mapGet (mapSet reg c (setParentElement cm (some ne))) ne = none) :
    linkReg ne reg c = mapSet reg c (setParentElement cm (some ne)) := by
  simp [linkReg, hc, hpn]

theorem linkReg_some_some (ne : Nat) (reg : List (Nat × ElementMetadata)) (c : Nat)
    (cm pm : ElementMetadata) (hc : mapGet reg c = some cm)
    (hpn : mapGet (mapSet reg c (setParentElement cm (some ne))) ne = some pm) :
    linkReg ne reg c
      = mapSet (mapSet reg c (setParentElement cm (some ne))) ne (addChild pm c) := by
  simp [linkReg, hc, hpn]

theorem linkReg_isSome (ne : Nat) (reg : List (Nat × ElementMetadata)) (c x : Nat) :
    (mapGet (linkReg ne reg c) x).isSome = (mapGet reg x).isSome := by
  cases hc : mapGet reg c with
  | none => rw [linkReg_eq_none ne reg c hc]
  | some cm =>
    cases hpn : mapGet (mapSet reg c (setParentElement cm (some ne))) ne with
    | none =>
      rw [linkReg_some_none ne reg c cm hc hpn, mapGet_mapSet]
      by_cases hxc : x = c
      · rw [if_pos hxc, hxc, hc]; rfl
      · rw [if_neg hxc]
    | some pm =>
      rw [linkReg_some_some ne reg c cm pm hc hpn, mapGet_mapSet]
      by_cases hxn : x = ne
      · rw [if_pos hxn]
        rw [mapGet_mapSet] at hpn
        by_cases hnc : ne = c
        · rw [hxn, hnc, hc]; rfl
        · rw [if_neg hnc] at hpn
          rw [hxn, hpn]; rfl
      · rw [if_neg hxn, mapGet_mapSet]
        by_cases hxc : x = c
        · rw [if_pos hxc, hxc, hc]; rfl
        · rw [if_neg hxc]

theorem linkReg_fields (ne : Nat) (reg : List (Nat × ElementMetadata)) (c x : Nat)
    (m' : ElementMetadata) (h : mapGet (linkReg ne reg c) x = some m') :
    ∃ m, mapGet reg x = some m ∧ sameCore m m' := by
  cases hc : mapGet reg c with
  | none =>
    rw [linkReg_eq_none ne reg c hc] at h
    exact ⟨m', h, sameCore_refl m'⟩
  | some cm =>
    cases hpn : mapGet (mapSet reg c (setParentElement cm (some ne))) ne with
    | none =>
      rw [linkReg_some_none ne reg c cm hc hpn, mapGet_mapSet] at h
      by_cases hxc : x = c
      · rw [if_pos hxc] at h
        injection h with h2
        refine ⟨cm, by rw [hxc, hc], ?_⟩
        rw [← h2]
        exact sameCore_setParentElement cm (some ne)
      · rw [if_neg hxc] at h
        exact ⟨m', h, sameCore_refl m'⟩
    | some pm =>
      rw [linkReg_some_some ne reg c cm pm hc hpn, mapGet_mapSet] at h
      rw [mapGet_mapSet] at hpn
      by_cases hxn : x = ne
      · rw [if_pos hxn] at h
        injection h with h2
        by_cases hnc : ne = c
        · rw [if_pos hnc] at hpn
          injection hpn with hpn2
          refine ⟨cm, by rw [hxn, hnc, hc], ?_⟩
          rw [← h2, ← hpn2]
          exact sameCore_trans (sameCore_setParentElement cm (some ne))
            (sameCore_addChild _ c)
        · rw [if_neg hnc] at hpn
          refine ⟨pm, by rw [hxn, hpn], ?_⟩
          rw [← h2]
          exact sameCore_addChild pm c
      · rw [if_neg hxn, mapGet_mapSet] at h
        by_cases hxc : x = c
        · rw [if_pos hxc] at h
          injection h with h2
          refine ⟨cm, by rw [hxc, hc], ?_⟩
          rw [← h2]
          exact sameCore_setParentElement cm (some ne)
        · rw [if_neg hxc] at h
          exact ⟨m', h, sameCore_refl m'⟩

theorem addChild_parentElement (m : ElementMetadata) (c : Nat) :
    (addChild m c).parentElement = m.parentElement := by
  by_cases h : c ∈ m.children <;> simp [addChild, h, setChildren]

theorem linkReg_parent_of_child (ne : Nat) (reg : List (Nat × ElementMetadata)) (c : Nat)
    (cm : ElementMetadata) (hc : mapGet reg c = some cm) :
    ∃ cm', mapGet (linkReg ne reg c) c = some cm' ∧ cm'.parentElement = some ne := by
  cases hpn : mapGet (mapSet reg c (setParentElement cm (some ne))) ne with
  | none =>
    rw [linkReg_some_none ne reg c cm hc hpn, mapGet_mapSet, if_pos rfl]
    exact ⟨_, rfl, rfl⟩
  | some pm =>
    rw [linkReg_some_some ne reg c cm pm hc hpn, mapGet_mapSet]
    by_cases hcn : c = ne
    · rw [if_pos hcn]
      refine ⟨addChild pm c, rfl, ?_⟩
      rw [mapGet_mapSet, if_pos hcn.symm] at hpn
      injection hpn with h2
      rw [addChild_parentElement, ← h2]
      rfl
    · rw [if_neg hcn, mapGet_mapSet, if_pos rfl]
      exact ⟨_, rfl, rfl⟩

theorem linkReg_parent_stable (ne : Nat) (reg : List (Nat × ElementMetadata)) (c x : Nat)
    (mx : ElementMetadata) (h : mapGet reg x = some mx) (hp : mx.parentElement = some ne) :
    ∃ mx', mapGet (linkReg ne reg c) x = some mx' ∧ mx'.parentElement = some ne := by
  cases hc : mapGet reg c with
  | none =>
    rw [linkReg_eq_none ne reg c hc]
    exact ⟨mx, h, hp⟩
  | some cm =>
    cases hpn : mapGet (mapSet reg c (setParentElement cm (some ne))) ne with
    | none =>
      rw [linkReg_some_none ne reg c cm hc hpn, mapGet_mapSet]
      by_cases hxc : x = c
      · rw [if_pos hxc]
        exact ⟨_, rfl, rfl⟩
      · rw [if_neg hxc]
        exact ⟨mx, h, hp⟩
    | some pm =>
      rw [linkReg_some_some ne reg c cm pm hc hpn, mapGet_mapSet]
      by_cases hxn : x = ne
      · rw [if_pos hxn]
        refine ⟨addChild pm c, rfl, ?_⟩
        rw [addChild_parentElement]
        rw [mapGet_mapSet] at hpn
        by_cases hnc : ne = c
        · rw [if_pos hnc] at hpn
          injection hpn with h2
          rw [← h2]
          rfl
        · rw [if_neg hnc] at hpn
          rw [hxn] at h
          rw [h] at hpn
          injection hpn with h2
          rw [← h2]
          exact hp
      · rw [if_neg hxn, mapGet_mapSet]
        by_cases hxc : x = c
        · rw [if_pos hxc]
          exact ⟨_, rfl, rfl⟩
        · rw [if_neg hxc]
          exact ⟨mx, h, hp⟩

theorem linkReg_childmem_stable (ne : Nat) (reg : List (Nat × ElementMetadata)) (c q : Nat)
    (pm0 : ElementMetadata) (h : mapGet reg ne = some pm0) (hq : q ∈ pm0.children) :
    ∃ pm', mapGet (linkReg ne reg c) ne = some pm' ∧ q ∈ pm'.children := by
  cases hc : mapGet reg c with
  | none =>
    rw [linkReg_eq_none ne reg c hc]
    exact ⟨pm0, h, hq⟩
  | some cm =>
    cases hpn : mapGet (mapSet reg c (setParentElement cm (some ne))) ne with
    | none =>
      rw [mapGet_mapSet] at hpn
      by_cases hnc : ne = c
      · rw [if_pos hnc] at hpn
        exact absurd hpn (by simp)
      · rw [if_neg hnc, h] at hpn
        exact absurd hpn (by simp)
    | some pm =>
      rw [linkReg_some_some ne reg c cm pm hc hpn, mapGet_mapSet, if_pos rfl]
      refine ⟨addChild pm c, rfl, addChild_children_superset pm c q ?_⟩
      rw [mapGet_mapSet] at hpn
      by_cases hnc : ne = c
      · rw [if_pos hnc] at hpn
        injection hpn with h2
        rw [hnc] at h
        rw [h] at hc
        injection hc with h3
        rw [← h2]
        show q ∈ (setParentElement cm (some ne)).children
        rw [show (setParentElement cm (some ne)).children = cm.children from rfl, ← h3]
        exact hq
      · rw [if_neg hnc, h] at hpn
        injection hpn with h2
        rw [← h2]
        exact hq

theorem linkReg_childmem_new (ne : Nat) (reg : List (Nat × ElementMetadata)) (c : Nat)
    (cm : ElementMetadata) (hc : mapGet reg c = some cm)
    (hne : (mapGet reg ne).isSome = true) :
    ∃ pm', mapGet (linkReg ne reg c) ne = some pm' ∧ c ∈ pm'.children := by
  cases hpn : mapGet (mapSet reg c (setParentElement cm (some ne))) ne with
  | none =>
    rw [mapGet_mapSet] at hpn
    by_cases hnc : ne = c
    · rw [if_pos hnc] at hpn
      exact absurd hpn (by simp)
    · rw [if_neg hnc] at hpn
      rw [hpn] at hne
      exact absurd hne (by simp)
  | some pm =>
    rw [linkReg_some_some ne reg c cm pm hc hpn, mapGet_mapSet, if_pos rfl]
    exact ⟨addChild pm c, rfl, addChild_mem_self pm c⟩

theorem resolvesB_congr (d : Dom) (nid : Focusable) (ne : Nat)
    (reg1 reg2 : List (Nat × ElementMetadata)) (p : PendingRelationship)
    (h : (mapGet reg1 p.childElement).isSome = (mapGet reg2 p.childElement).isSome) :
    resolvesB d nid ne reg1 p = resolvesB d nid ne reg2 p := by
  unfold resolvesB
  rw [h]

theorem resolveFold_isSome (d : Dom) (nid : Focusable) (ne : Nat) :
    ∀ (pend : List PendingRelationship)
      (acc : List (Nat × ElementMetadata) × List PendingRelationship) (x : Nat),
    (mapGet ((pend.foldl (resolvePendingStep d nid ne) acc).1) x).isSome
      = (mapGet acc.1 x).isSome := by
  intro pend
  induction pend with
  | nil => intro acc x; rfl
  | cons p rest ih =>
    intro acc x
    rw [List.foldl_cons, resolvePendingStep_char]
    by_cases hr : resolvesB d nid ne acc.1 p
    · rw [if_pos hr, ih]
      exact linkReg_isSome ne acc.1 p.childElement x
    · rw [if_neg hr, ih]

theorem resolveFold_kept (d : Dom) (nid : Focusable) (ne : Nat) :
    ∀ (pend : List PendingRelationship)
      (acc : List (Nat × ElementMetadata) × List PendingRelationship),
    (pend.foldl (resolvePendingStep d nid ne) acc).2
      = acc.2 ++ pend.filter (fun p => !(resolvesB d nid ne acc.1 p)) := by
  intro pend
  induction pend with
  | nil => intro acc; simp
  | cons p rest ih =>
    intro acc
    rw [List.foldl_cons, resolvePendingStep_char]
    by_cases hr : resolvesB d nid ne acc.1 p
    · rw [if_pos hr, ih, List.filter_cons]
      simp only [hr, Bool.not_true, Bool.false_eq_true, if_false]
      congr 1
      apply List.filter_congr
      intro q hq
      have := resolvesB_congr d nid ne (linkReg ne acc.1 p.childElement) acc.1 q
        (linkReg_isSome ne acc.1 p.childElement q.childElement)
      simp only [this]
    · rw [if_neg hr, ih, List.filter_cons]
      cases hbb : resolvesB d nid ne acc.1 p with
      | true => exact absurd hbb hr
      | false => simp [hbb, List.append_assoc]

theorem resolveFold_fields (d : Dom) (nid : Focusable) (ne : Nat) :
    ∀ (pend : List PendingRelationship)
      (acc : List (Nat × ElementMetadata) × List PendingRelationship) (x : Nat)
      (m' : ElementMetadata),
    mapGet ((pend.foldl (resolvePendingStep d nid ne) acc).1) x = some m' →
    ∃ m, mapGet acc.1 x = some m ∧ sameCore m m' := by
  intro pend
  induction pend with
  | nil =>
    intro acc x m' h
    exact ⟨m', h, sameCore_refl m'⟩
  | cons p rest ih =>
    intro acc x m' h
    rw [List.foldl_cons, resolvePendingStep_char] at h
    by_cases hr : resolvesB d nid ne acc.1 p
    · rw [if_pos hr] at h
      obtain ⟨mid, hmid, hcore⟩ := ih (linkReg ne acc.1 p.childElement, acc.2) x m' h
      obtain ⟨m, hm, hcore2⟩ := linkReg_fields ne acc.1 p.childElement x mid hmid
      exact ⟨m, hm, sameCore_trans hcore2 hcore⟩
    · rw [if_neg hr] at h
      exact ih (acc.1, acc.2 ++ [p]) x m' h

theorem resolveFold_parent_stable (d : Dom) (nid : Focusable) (ne : Nat) :
    ∀ (pend : List PendingRelationship)
      (acc : List (Nat × ElementMetadata) × List PendingRelationship) (x : Nat)
      (mx : ElementMetadata),
    mapGet acc.1 x = some mx → mx.parentElement = some ne →
    ∃ mx', mapGet ((pend.foldl (resolvePendingStep d nid ne) acc).1) x = some mx' ∧
      mx'.parentElement = some ne := by
  intro pend
  induction pend with
  | nil =>
    intro acc x mx h hp
    exact ⟨mx, h, hp⟩
  | cons p rest ih =>
    intro acc x mx h hp
    rw [List.foldl_cons, resolvePendingStep_char]
    by_cases hr : resolvesB d nid ne acc.1 p
    · rw [if_pos hr]
      obtain ⟨mid, hmid, hpmid⟩ := linkReg_parent_stable ne acc.1 p.childElement x mx h hp
      exact ih (linkReg ne acc.1 p.childElement, acc.2) x mid hmid hpmid
    · rw [if_neg hr]
      exact ih (acc.1, acc.2 ++ [p]) x mx h hp

theorem resolveFold_childmem_stable (d : Dom) (nid : Focusable) (ne : Nat) :
    ∀ (pend : List PendingRelationship)
      (acc : List (Nat × ElementMetadata) × List PendingRelationship) (q : Nat)
      (pm0 : ElementMetadata),
    mapGet acc.1 ne = some pm0 → q ∈ pm0.children →
    ∃ pm', mapGet ((pend.foldl (resolvePendingStep d nid ne) acc).1) ne = some pm' ∧
      q ∈ pm'.children := by
  intro pend
  induction pend with
  | nil =>
    intro acc q pm0 h hq
    exact ⟨pm0, h, hq⟩
  | cons p rest ih =>
    intro acc q pm0 h hq
    rw [List.foldl_cons, resolvePendingStep_char]
    by_cases hr : resolvesB d nid ne acc.1 p
    · rw [if_pos hr]
      obtain ⟨mid, hmid, hqmid⟩ := linkReg_childmem_stable ne acc.1 p.childElement q pm0 h hq
      exact ih (linkReg ne acc.1 p.childElement, acc.2) q mid hmid hqmid
    · rw [if_neg hr]
      exact ih (acc.1, acc.2 ++ [p]) q pm0 h hq

theorem resolveFold_link (d : Dom) (nid : Focusable) (ne : Nat) :
    ∀ (pend : List PendingRelationship)
      (acc : List (Nat × ElementMetadata) × List PendingRelationship)
      (p : PendingRelationship),
    p ∈ pend → resolvesB d nid ne acc.1 p = true → (mapGet acc.1 ne).isSome = true →
    (∃ cm', mapGet ((pend.foldl (resolvePendingStep d nid ne) acc).1) p.childElement
        = some cm' ∧ cm'.parentElement = some ne) ∧
    (∃ pm', mapGet ((pend.foldl (resolvePendingStep d nid ne) acc).1) ne = some pm' ∧
        p.childElement ∈ pm'.children) := by
  intro pend
  induction pend with
  | nil =>
    intro acc p hp
    exact absurd hp (List.not_mem_nil p)
  | cons q rest ih =>
    intro acc p hp hres hne
    rw [List.foldl_cons, resolvePendingStep_char]
    rcases List.mem_cons.mp hp with hpq | hp'
    · subst hpq
      rw [if_pos hres]
      have hcreg : (mapGet acc.1 p.childElement).isSome = true := by
        have h3 := hres
        unfold resolvesB at h3
        rw [Bool.and_eq_true, Bool.and_eq_true] at h3
        exact h3.1.2
      obtain ⟨cm, hcm⟩ := Option.isSome_iff_exists.mp hcreg
      constructor
      · obtain ⟨cm', hcm', hpar⟩ := linkReg_parent_of_child ne acc.1 p.childElement cm hcm
        exact resolveFold_parent_stable d nid ne rest
          (linkReg ne acc.1 p.childElement, acc.2) p.childElement cm' hcm' hpar
      · obtain ⟨pm', hpm', hmem⟩ := linkReg_childmem_new ne acc.1 p.childElement cm hcm hne
        exact resolveFold_childmem_stable d nid ne rest
          (linkReg ne acc.1 p.childElement, acc.2) p.childElement pm' hpm' hmem
    · by_cases hr : resolvesB d nid ne acc.1 q
      · rw [if_pos hr]
        apply ih (linkReg ne acc.1 q.childElement, acc.2) p hp'
        · rw [resolvesB_congr d nid ne (linkReg ne acc.1 q.childElement) acc.1 p
            (linkReg_isSome ne acc.1 q.childElement p.childElement)]
          exact hres
        · rw [linkReg_isSome]
          exact hne
      · rw [if_neg hr]
        exact ih (acc.1, acc.2 ++ [q]) p hp' hres hne

theorem resolvePR_registry_isSome (d : Dom) (s : FMState) (nid : Focusable) (ne x : Nat) :
    (mapGet (resolvePendingRelationships d s nid ne).elementRegistry x).isSome
      = (mapGet s.elementRegistry x).isSome := by
  unfold resolvePendingRelationships
  exact resolveFold_isSome d nid ne s.pendingRelationships (s.elementRegistry, []) x

theorem resolvePR_pendings (d : Dom) (s : FMState) (nid : Focusable) (ne : Nat) :
    (resolvePendingRelationships d s nid ne).pendingRelationships
      = s.pendingRelationships.filter
          (fun p => !(resolvesB d nid ne s.elementRegistry p)) := by
  unfold resolvePendingRelationships
  have := resolveFold_kept d nid ne s.pendingRelationships (s.elementRegistry, [])
  simpa using this

theorem resolvePR_logicalIndex (d : Dom) (s : FMState) (nid : Focusable) (ne : Nat) :
    (resolvePendingRelationships d s nid ne).logicalIndex = s.logicalIndex := rfl

theorem resolvePR_current (d : Dom) (s : FMState) (nid : Focusable) (ne : Nat) :
    (resolvePendingRelationships d s nid ne).currentElement = s.currentElement := rfl

theorem resolvePR_events (d : Dom) (s : FMState) (nid : Focusable) (ne : Nat) :
    (resolvePendingRelationships d s nid ne).events = s.events := rfl

/-! ### doRegister characterization -/

theorem mapSet_isSome_of_present {κ α : Type} [DecidableEq κ] (m : List (κ × α)) (k : κ)
    (v : α) (hk : (mapGet m k).isSome = true) (x : κ) :
    (mapGet (mapSet m k v) x).isSome = (mapGet m x).isSome := by
  rw [mapGet_mapSet]
  by_cases hxk : x = k
  · rw [if_pos hxk, hxk, hk]
    rfl
  · rw [if_neg hxk]

theorem findRegisteredParentAux_isSome (s : FMState) :
    ∀ (l : List Nat) (bt : Option Nat × Nat),
    (∀ bb, bt.1 = some bb → (mapGet s.elementRegistry bb).isSome = true) →
    ∀ c, (l.foldl (frpStep s) bt).1 = some c →
      (mapGet s.elementRegistry c).isSome = true := by
  intro l
  induction l with
  | nil =>
    intro bt hb c hc
    exact hb c hc
  | cons a rest ih =>
    intro bt hb c hc
    rw [List.foldl_cons] at hc
    cases ha : mapGet s.elementRegistry a with
    | none =>
      rw [show frpStep s bt a = bt by simp [frpStep, ha]] at hc
      exact ih bt hb c hc
    | some ma =>
      by_cases ht : bt.2 < ma.registrationTime
      · rw [show frpStep s bt a = (some a, ma.registrationTime) by
          simp [frpStep, ha, ht]] at hc
        refine ih (some a, ma.registrationTime) ?_ c hc
        intro bb hbb
        injection hbb with h2
        rw [← h2, ha]
        rfl
      · rw [show frpStep s bt a = bt by simp [frpStep, ha, ht]] at hc
        exact ih bt hb c hc

theorem findRegisteredParent_isSome (s : FMState) (pid : Focusable) (c : Nat)
    (h : findRegisteredParent s pid = some c) :
    (mapGet s.elementRegistry c).isSome = true := by
  unfold findRegisteredParent at h
  cases hli : mapGet s.logicalIndex pid with
  | none =>
    rw [hli] at h
    exact Option.noConfusion h
  | some candidates =>
    simp only [hli] at h
    by_cases hemp : candidates.isEmpty
    · rw [if_pos hemp] at h
      exact Option.noConfusion h
    · rw [if_neg hemp] at h
      exact findRegisteredParentAux_isSome s candidates (none, 0) (fun bb hbb =>
        Option.noConfusion hbb) c h

theorem findParentInDOM_isSome (s : FMState) (d : Dom) (e : Nat) (pid : Focusable)
    (c : Nat) (h : findParentInDOM s d e pid = some c) :
    (mapGet s.elementRegistry c).isSome = true := by
  unfold findParentInDOM at h
  have hp := List.find?_some h
  cases hc : mapGet s.elementRegistry c with
  | none =>
    rw [hc] at hp
    exact absurd hp (by simp)
  | some mc => rfl

theorem drParent_registered (d : Dom) (options : FocusableOptions) (element : Nat)
    (s0 : FMState) (pe : Nat) (h : drParent d options element s0 = some pe) :
    (mapGet s0.elementRegistry pe).isSome = true := by
  unfold drParent at h
  by_cases hp : hasParentId options
  · rw [if_pos hp] at h
    cases hf : findRegisteredParent s0 (options.parentId.getD "") with
    | none =>
      rw [hf] at h
      exact findParentInDOM_isSome s0 d element (options.parentId.getD "") pe h
    | some p =>
      rw [hf] at h
      injection h with h2
      rw [← h2]
      exact findRegisteredParent_isSome s0 (options.parentId.getD "") p hf
  · rw [if_neg hp] at h
    exact Option.noConfusion h

theorem drParent_ne (d : Dom) (options : FocusableOptions) (element : Nat)
    (s0 : FMState) (h0 : mapGet s0.elementRegistry element = none) (pe : Nat)
    (h : drParent d options element s0 = some pe) : pe ≠ element := by
  intro hh
  have := drParent_registered d options element s0 pe h
  rw [hh, h0] at this
  exact Bool.noConfusion this

theorem doRegisterMid_lookup_self (d : Dom) (now : Nat) (options : FocusableOptions)
    (element : Nat) (s : FMState) :
    mapGet (doRegisterMid d now options element s).elementRegistry element
      = some ⟨options.id, drParent d options element (unregisterElement s element),
          [], now, options⟩ := by
  simp only [doRegisterMid]
  cases hpe : drParent d options element (unregisterElement s element) with
  | none => simp [hpe, mapGet_mapSet]
  | some pe =>
    have hne : pe ≠ element :=
      drParent_ne d options element (unregisterElement s element)
        (unregisterElement_lookup_self s element) pe hpe
    have hne2 : ¬(element = pe) := fun hh => hne hh.symm
    simp only [hpe]
    cases hpm : mapGet (mapSet (unregisterElement s element).elementRegistry element
        ⟨options.id, some pe, [], now, options⟩) pe with
    | none => simp [mapGet_mapSet]
    | some pm => simp [mapGet_mapSet, hne2]

theorem doRegisterMid_isSome (d : Dom) (now : Nat) (options : FocusableOptions)
    (element : Nat) (s : FMState) (x : Nat) :
    (mapGet (doRegisterMid d now options element s).elementRegistry x).isSome = true
      ↔ (x = element ∨
          (mapGet (unregisterElement s element).elementRegistry x).isSome = true) := by
  simp only [doRegisterMid]
  have hself : (mapGet (mapSet (unregisterElement s element).elementRegistry element
      ⟨options.id, drParent d options element (unregisterElement s element), [],
        now, options⟩) x).isSome = true
      ↔ (x = element ∨
          (mapGet (unregisterElement s element).elementRegistry x).isSome = true) := by
    rw [mapGet_mapSet]
    by_cases hxe : x = element
    · simp [hxe]
    · simp [hxe]
  cases hpe : drParent d options element (unregisterElement s element) with
  | none =>
    simpa [hpe] using hself
  | some pe =>
    simp only [hpe]
    cases hpm : mapGet (mapSet (unregisterElement s element).elementRegistry element
        ⟨options.id, some pe, [], now, options⟩) pe with
    | none =>
      simpa [hpe] using hself
    | some pm =>
      have hpres : (mapGet (mapSet (unregisterElement s element).elementRegistry element
          ⟨options.id, some pe, [], now, options⟩) pe).isSome = true := by
        rw [hpm]; rfl
      rw [mapSet_isSome_of_present _ pe (addChild pm element) hpres x]
      simpa [hpe] using hself

theorem doRegisterMid_pendings (d : Dom) (now : Nat) (options : FocusableOptions)
    (element : Nat) (s : FMState) :
    (doRegisterMid d now options element s).pendingRelationships
      = if hasParentId options
            && (drParent d options element (unregisterElement s element)).isNone then
          s.pendingRelationships
            ++ [⟨element, options.parentId.getD "", now⟩]
        else s.pendingRelationships := by
  simp only [doRegisterMid]
  rw [unregisterElement_pendings]

theorem doRegisterMid_current (d : Dom) (now : Nat) (options : FocusableOptions)
    (element : Nat) (s : FMState) :
    (doRegisterMid d now options element s).currentElement = s.currentElement := by
  simp only [doRegisterMid]
  rw [unregisterElement_current]

theorem doRegister_registry (d : Dom) (now : Nat) (options : FocusableOptions)
    (element : Nat) (s : FMState) :
    (doRegister d now options element s).elementRegistry
      = (resolvePendingRelationships d (doRegisterMid d now options element s)
          options.id element).elementRegistry := by
  unfold doRegister
  by_cases h : options.hasOnFocus
      && (resolvePendingRelationships d (doRegisterMid d now options element s)
          options.id element).currentElement == some element
  · rw [if_pos h]
  · rw [if_neg h]

theorem doRegister_pendings (d : Dom) (now : Nat) (options : FocusableOptions)
    (element : Nat) (s : FMState) :
    (doRegister d now options element s).pendingRelationships
      = (resolvePendingRelationships d (doRegisterMid d now options element s)
          options.id element).pendingRelationships := by
  unfold doRegister
  by_cases h : options.hasOnFocus
      && (resolvePendingRelationships d (doRegisterMid d now options element s)
          options.id element).currentElement == some element
  · rw [if_pos h]
  · rw [if_neg h]

theorem doRegister_logicalIndex (d : Dom) (now : Nat) (options : FocusableOptions)
    (element : Nat) (s : FMState) :
    (doRegister d now options element s).logicalIndex
      = (doRegisterMid d now options element s).logicalIndex := by
  unfold doRegister
  by_cases h : options.hasOnFocus
      && (resolvePendingRelationships d (doRegisterMid d now options element s)
          options.id element).currentElement == some element
  · rw [if_pos h]
    rfl
  · rw [if_neg h]
    rfl

/-! ### unregister, setActive, navigation: projection lemmas -/

theorem unregisterElement_isSome (s : FMState) (e x : Nat) :
    (mapGet (unregisterElement s e).elementRegistry x).isSome = true
      ↔ (x ≠ e ∧ (mapGet s.elementRegistry x).isSome = true) := by
  by_cases hxe : x = e
  · subst hxe
    rw [unregisterElement_lookup_self]
    simp
  · cases hme : mapGet s.elementRegistry e with
    | none =>
      rw [unregisterElement_not_registered s e hme]
      simp [hxe]
    | some me =>
      rw [unregisterElement_lookup s e me hme x hxe]
      simp [hxe]

theorem unregisterFold_pendings : ∀ (elems : List Nat) (s : FMState),
    (elems.foldl (fun st elem => unregisterElement st elem) s).pendingRelationships
      = s.pendingRelationships := by
  intro elems
  induction elems with
  | nil => intro s; rfl
  | cons a rest ih =>
    intro s
    rw [List.foldl_cons, ih, unregisterElement_pendings]

theorem unregister_pendings (lid : Focusable) (eo : Option Nat) (s : FMState) :
    (unregister lid eo s).pendingRelationships
      = s.pendingRelationships.filter (fun p =>
          p.parentId != lid && (eo.isNone || !(some p.childElement == eo))) := by
  unfold unregister
  cases eo with
  | some e => simp [unregisterElement_pendings]
  | none =>
    cases hli : mapGet s.logicalIndex lid with
    | none => rfl
    | some elems =>
      simp [hli, unregisterFold_pendings]

theorem unregister_registry_some (lid : Focusable) (e : Nat) (s : FMState) :
    (unregister lid (some e) s).elementRegistry
      = (unregisterElement s e).elementRegistry := rfl

theorem setActive_registry (d : Dom) (t : FocusTarget) (s : FMState) :
    (setActive d t s).elementRegistry = s.elementRegistry := by
  unfold setActive
  cases t with
  | elem e => cases h : mapGet s.elementRegistry e <;> simp [h]
  | id lid =>
    cases h : mapGet s.logicalIndex lid with
    | none => simp [h]
    | some cs =>
      by_cases hemp : cs.isEmpty
      · simp [h, hemp]
      · cases hsel : selectBestCandidate d s cs with
        | none => simp [h, hemp, hsel]
        | some t0 =>
          cases hm : mapGet s.elementRegistry t0 <;> simp [h, hemp, hsel, hm]

theorem setActive_logicalIndex (d : Dom) (t : FocusTarget) (s : FMState) :
    (setActive d t s).logicalIndex = s.logicalIndex := by
  unfold setActive
  cases t with
  | elem e => cases h : mapGet s.elementRegistry e <;> simp [h]
  | id lid =>
    cases h : mapGet s.logicalIndex lid with
    | none => simp [h]
    | some cs =>
      by_cases hemp : cs.isEmpty
      · simp [h, hemp]
      · cases hsel : selectBestCandidate d s cs with
        | none => simp [h, hemp, hsel]
        | some t0 =>
          cases hm : mapGet s.elementRegistry t0 <;> simp [h, hemp, hsel, hm]

theorem setActive_pendings (d : Dom) (t : FocusTarget) (s : FMState) :
    (setActive d t s).pendingRelationships = s.pendingRelationships := by
  unfold setActive
  cases t with
  | elem e => cases h : mapGet s.elementRegistry e <;> simp [h]
  | id lid =>
    cases h : mapGet s.logicalIndex lid with
    | none => simp [h]
    | some cs =>
      by_cases hemp : cs.isEmpty
      · simp [h, hemp]
      · cases hsel : selectBestCandidate d s cs with
        | none => simp [h, hemp, hsel]
        | some t0 =>
          cases hm : mapGet s.elementRegistry t0 <;> simp [h, hemp, hsel, hm]

theorem setActive_elem_current (d : Dom) (s : FMState) (e : Nat)
    (h : (mapGet s.elementRegistry e).isSome = true) :
    (setActive d (FocusTarget.elem e) s).currentElement = some e := by
  obtain ⟨m, hm⟩ := Option.isSome_iff_exists.mp h
  unfold setActive
  simp [hm]

theorem setActive_elem_unregistered (d : Dom) (s : FMState) (e : Nat)
    (h : mapGet s.elementRegistry e = none) :
    setActive d (FocusTarget.elem e) s = s := by
  unfold setActive
  simp [h]

theorem setActive_id_empty (d : Dom) (s : FMState) (lid : Focusable)
    (h : mapGet s.logicalIndex lid = none ∨ mapGet s.logicalIndex lid = some []) :
    setActive d (FocusTarget.id lid) s = s := by
  unfold setActive
  rcases h with h | h <;> simp [h]

theorem ensureRelationships_not_registered (d : Dom) (s : FMState) (e : Nat)
    (h : mapGet s.elementRegistry e = none) : ensureRelationships d s e = s := by
  simp [ensureRelationships, h]

theorem ensureRelationships_resolved (d : Dom) (s : FMState) (e : Nat)
    (m : ElementMetadata) (hm : mapGet s.elementRegistry e = some m)
    (hp : m.parentElement.isSome = true) : ensureRelationships d s e = s := by
  unfold ensureRelationships
  rw [hm]
  cases hpp : m.parentElement with
  | none => rw [hpp] at hp; exact Bool.noConfusion hp
  | some pe => simp [hpp]

/-! ### Pending-queue invariant: definitions and congruence -/

theorem list_all_congr {α : Type} : ∀ (l : List α) (p q : α → Bool),
    (∀ a ∈ l, p a = q a) → l.all p = l.all q := by
  intro l
  induction l with
  | nil => intro p q h; rfl
  | cons a rest ih =>
    intro p q h
    rw [List.all_cons, List.all_cons, h a (List.mem_cons_self a rest),
      ih p q (fun b hb => h b (List.mem_cons_of_mem a hb))]

theorem childRegisteredB_congr (s1 s2 : FMState)
    (hpend : s1.pendingRelationships = s2.pendingRelationships)
    (hreg : ∀ x, (mapGet s1.elementRegistry x).isSome
      = (mapGet s2.elementRegistry x).isSome) :
    childRegisteredB s1 = childRegisteredB s2 := by
  unfold childRegisteredB
  rw [hpend]
  exact list_all_congr _ _ _ (fun p _ => hreg p.childElement)

theorem pendingInvB_congr (s1 s2 : FMState)
    (hpend : s1.pendingRelationships = s2.pendingRelationships)
    (hreg : s1.elementRegistry = s2.elementRegistry) :
    pendingInvB s1 = pendingInvB s2 := by
  unfold pendingInvB resolvedFor
  rw [hpend]
  exact list_all_congr _ _ _ (fun p _ => by rw [hreg])

theorem tryResolveOrphan_pendings (d : Dom) (s : FMState) (e : Nat) :
    (tryResolveOrphan d s e).pendingRelationships = s.pendingRelationships := by
  unfold tryResolveOrphan
  cases h : mapGet s.elementRegistry e with
  | none => rfl
  | some m =>
    cases hf : (d.ancestorChain e).find? (fun a => (mapGet s.elementRegistry a).isSome) with
    | none => simp [hf]
    | some anc =>
      cases hpm : mapGet (mapSet s.elementRegistry e (setParentElement m (some anc))) anc
        <;> simp [hf, hpm]

theorem tryResolveOrphan_registry_isSome (d : Dom) (s : FMState) (e x : Nat) :
    (mapGet (tryResolveOrphan d s e).elementRegistry x).isSome
      = (mapGet s.elementRegistry x).isSome := by
  unfold tryResolveOrphan
  cases h : mapGet s.elementRegistry e with
  | none => rfl
  | some m =>
    cases hf : (d.ancestorChain e).find? (fun a => (mapGet s.elementRegistry a).isSome) with
    | none => simp [hf]
    | some anc =>
      have hepres : (mapGet s.elementRegistry e).isSome = true := by rw [h]; rfl
      cases hpm : mapGet (mapSet s.elementRegistry e (setParentElement m (some anc))) anc with
      | none =>
        simp only [hf, hpm]
        exact mapSet_isSome_of_present _ e _ hepres x
      | some pm =>
        simp only [hf, hpm]
        have hancpres : (mapGet (mapSet s.elementRegistry e
            (setParentElement m (some anc))) anc).isSome = true := by rw [hpm]; rfl
        rw [mapSet_isSome_of_present _ anc _ hancpres x]
        exact mapSet_isSome_of_present _ e _ hepres x

theorem ensureRelationships_pendings (d : Dom) (s : FMState) (e : Nat) :
    (ensureRelationships d s e).pendingRelationships = s.pendingRelationships := by
  unfold ensureRelationships
  cases h : mapGet s.elementRegistry e with
  | none => rfl
  | some m =>
    by_cases hc : m.parentElement.isNone && !s.pendingRelationships.isEmpty
    · simp only [hc, if_true]
      exact tryResolveOrphan_pendings d s e
    · simp [hc]

theorem ensureRelationships_registry_isSome (d : Dom) (s : FMState) (e x : Nat) :
    (mapGet (ensureRelationships d s e).elementRegistry x).isSome
      = (mapGet s.elementRegistry x).isSome := by
  unfold ensureRelationships
  cases h : mapGet s.elementRegistry e with
  | none => rfl
  | some m =>
    by_cases hc : m.parentElement.isNone && !s.pendingRelationships.isEmpty
    · simp only [hc, if_true]
      exact tryResolveOrphan_registry_isSome d s e x
    · simp [hc]

theorem childRegisteredB_setActive (d : Dom) (t : FocusTarget) (s : FMState) :
    childRegisteredB (setActive d t s) = childRegisteredB s :=
  childRegisteredB_congr _ _ (setActive_pendings d t s)
    (fun x => by rw [setActive_registry])

theorem pendingInvB_setActive (d : Dom) (t : FocusTarget) (s : FMState) :
    pendingInvB (setActive d t s) = pendingInvB s :=
  pendingInvB_congr _ _ (setActive_pendings d t s) (setActive_registry d t s)

theorem childRegisteredB_ensure (d : Dom) (s : FMState) (e : Nat) :
    childRegisteredB (ensureRelationships d s e) = childRegisteredB s :=
  childRegisteredB_congr _ _ (ensureRelationships_pendings d s e)
    (fun x => ensureRelationships_registry_isSome d s e x)

theorem childRegisteredB_focusSibling (d : Dom) (fwd : Bool) (s : FMState) :
    childRegisteredB (focusSibling d fwd s) = childRegisteredB s := by
  cases hcur : s.currentElement with
  | none => simp [focusSibling, hcur]
  | some cur =>
    have hens := childRegisteredB_ensure d s cur
    simp only [focusSibling, hcur]
    cases hm : mapGet (ensureRelationships d s cur).elementRegistry cur with
    | none => exact hens
    | some metadata =>
      dsimp only
      cases hpar : metadata.parentElement with
      | none => exact hens
      | some pe =>
        dsimp only
        cases hpm : mapGet (ensureRelationships d s cur).elementRegistry pe with
        | none => exact hens
        | some parentMeta =>
          dsimp only
          by_cases hemp : (sortSiblingsByTabOrder (ensureRelationships d s cur)
              parentMeta.children).isEmpty = true
          · rw [if_pos hemp]
            exact hens
          · rw [if_neg hemp]
            by_cases hmem : cur ∈ sortSiblingsByTabOrder (ensureRelationships d s cur)
                parentMeta.children
            · rw [if_pos hmem, childRegisteredB_setActive]
              exact hens
            · rw [if_neg hmem]
              exact hens

theorem childRegisteredB_focusParent (d : Dom) (s : FMState) :
    childRegisteredB (focusParent d s) = childRegisteredB s := by
  cases hcur : s.currentElement with
  | none => simp [focusParent, hcur]
  | some cur =>
    have hens := childRegisteredB_ensure d s cur
    simp only [focusParent, hcur]
    cases hm : mapGet (ensureRelationships d s cur).elementRegistry cur with
    | none => exact hens
    | some metadata =>
      dsimp only
      cases hpar : metadata.parentElement with
      | none => exact hens
      | some pe =>
        dsimp only
        rw [childRegisteredB_setActive]
        exact hens

theorem childRegisteredB_focusFirstChild (d : Dom) (s : FMState) :
    childRegisteredB (focusFirstChild d s) = childRegisteredB s := by
  cases hcur : s.currentElement with
  | none => simp [focusFirstChild, hcur]
  | some cur =>
    have hens := childRegisteredB_ensure d s cur
    simp only [focusFirstChild, hcur]
    cases hm : mapGet (ensureRelationships d s cur).elementRegistry cur with
    | none => exact hens
    | some metadata =>
      dsimp only
      cases hch : metadata.children with
      | nil => exact hens
      | cons firstChild rest =>
        dsimp only
        rw [childRegisteredB_setActive]
        exact hens

theorem ueTransform_parentElement (me : ElementMetadata) (e x : Nat) (m : ElementMetadata) :
    (ueTransform me e x m).parentElement
      = if x ∈ ueKids me e then none else m.parentElement := by
  unfold ueTransform
  by_cases hA : me.parentElement = some x <;> by_cases hB : x ∈ ueKids me e <;>
    simp [hA, hB, removeChild, setChildren, setParentElement]

theorem ueTransform_logicalId (me : ElementMetadata) (e x : Nat) (m : ElementMetadata) :
    (ueTransform me e x m).logicalId = m.logicalId := by
  unfold ueTransform
  by_cases hA : me.parentElement = some x <;> by_cases hB : x ∈ ueKids me e <;>
    simp [hA, hB, removeChild, setChildren, setParentElement]

theorem unregister_pendings_mem (lid : Focusable) (eo : Option Nat) (s : FMState)
    (p : PendingRelationship) (hp : p ∈ (unregister lid eo s).pendingRelationships) :
    p ∈ s.pendingRelationships ∧ p.parentId ≠ lid ∧
      (∀ e, eo = some e → p.childElement ≠ e) := by
  rw [unregister_pendings] at hp
  have hmf := List.mem_filter.mp hp
  rw [Bool.and_eq_true] at hmf
  refine ⟨hmf.1, bne_iff_ne.mp hmf.2.1, ?_⟩
  intro e he hce
  have h2 := hmf.2.2
  rw [he] at h2
  rw [hce] at h2
  simp at h2

theorem unregister_pendings_mem_of (lid : Focusable) (eo : Option Nat) (s : FMState)
    (p : PendingRelationship) (hp : p ∈ s.pendingRelationships) (h1 : p.parentId ≠ lid)
    (h2 : ∀ e, eo = some e → p.childElement ≠ e) :
    p ∈ (unregister lid eo s).pendingRelationships := by
  rw [unregister_pendings]
  apply List.mem_filter.mpr
  refine ⟨hp, ?_⟩
  rw [Bool.and_eq_true]
  refine ⟨bne_iff_ne.mpr h1, ?_⟩
  cases eo with
  | none => rfl
  | some e =>
    have := h2 e rfl
    simp [this]

theorem childRegisteredB_unregister_some (lid : Focusable) (e : Nat) (s : FMState)
    (h : childRegisteredB s = true) :
    childRegisteredB (unregister lid (some e) s) = true := by
  unfold childRegisteredB at h ⊢
  rw [List.all_eq_true] at h ⊢
  intro p hp
  obtain ⟨hps, _, hch⟩ := unregister_pendings_mem lid (some e) s p hp
  have hce : p.childElement ≠ e := hch e rfl
  have hs := h p hps
  show (mapGet (unregister lid (some e) s).elementRegistry p.childElement).isSome = true
  rw [unregister_registry_some]
  exact (unregisterElement_isSome s e p.childElement).mpr ⟨hce, hs⟩

theorem resolvedFor_false_elim (s : FMState) (child : Nat) (pid : Focusable)
    (cm : ElementMetadata) (pe : Nat) (pm : ElementMetadata)
    (hc : mapGet s.elementRegistry child = some cm) (hpe : cm.parentElement = some pe)
    (hpm : mapGet s.elementRegistry pe = some pm) (hf : resolvedFor s child pid = false) :
    (pm.logicalId == pid) = false := by
  unfold resolvedFor at hf
  simp only [hc, hpe, hpm] at hf
  exact hf

theorem resolvedFor_false_unregisterElement (s : FMState) (e child : Nat) (pid : Focusable)
    (hne : child ≠ e) (hf : resolvedFor s child pid = false) :
    resolvedFor (unregisterElement s e) child pid = false := by
  cases hme : mapGet s.elementRegistry e with
  | none =>
    rw [unregisterElement_not_registered s e hme]
    exact hf
  | some me =>
    unfold resolvedFor
    rw [unregisterElement_lookup s e me hme child hne]
    cases hc : mapGet s.elementRegistry child with
    | none => rfl
    | some cm =>
      simp only [Option.map_some']
      cases hpe' : (ueTransform me e child cm).parentElement with
      | none => rfl
      | some pe =>
        dsimp only
        have hpe : cm.parentElement = some pe := by
          rw [ueTransform_parentElement] at hpe'
          by_cases hk : child ∈ ueKids me e
          · rw [if_pos hk] at hpe'
            exact Option.noConfusion hpe'
          · rw [if_neg hk] at hpe'
            exact hpe'
        by_cases hpee : pe = e
        · rw [hpee, unregisterElement_lookup_self]
        · rw [unregisterElement_lookup s e me hme pe hpee]
          cases hpp : mapGet s.elementRegistry pe with
          | none => rfl
          | some pm =>
            simp only [Option.map_some']
            rw [ueTransform_logicalId]
            exact resolvedFor_false_elim s child pid cm pe pm hc hpe hpp hf

theorem pendingInvB_unregister_some (lid : Focusable) (e : Nat) (s : FMState)
    (h : pendingInvB s = true) :
    pendingInvB (unregister lid (some e) s) = true := by
  unfold pendingInvB at h ⊢
  rw [List.all_eq_true] at h ⊢
  intro p hp
  obtain ⟨hps, _, hch⟩ := unregister_pendings_mem lid (some e) s p hp
  have hce : p.childElement ≠ e := hch e rfl
  have hs := h p hps
  rw [Bool.and_eq_true] at hs
  rw [Bool.and_eq_true]
  constructor
  · show (mapGet (unregister lid (some e) s).elementRegistry p.childElement).isSome = true
    rw [unregister_registry_some]
    exact (unregisterElement_isSome s e p.childElement).mpr ⟨hce, hs.1⟩
  · have hfs : resolvedFor s p.childElement p.parentId = false := by
      have := hs.2
      cases hr : resolvedFor s p.childElement p.parentId
      · rfl
      · rw [hr] at this
        simp at this
    have : resolvedFor (unregister lid (some e) s) p.childElement p.parentId = false := by
      show resolvedFor
        ⟨(unregisterElement s e).elementRegistry, (unregister lid (some e) s).logicalIndex,
          (unregister lid (some e) s).pendingRelationships,
          (unregister lid (some e) s).currentElement,
          (unregister lid (some e) s).events⟩ p.childElement p.parentId = false
      unfold resolvedFor
      have := resolvedFor_false_unregisterElement s e p.childElement p.parentId hce hfs
      unfold resolvedFor at this
      exact this
    rw [this]
    rfl

theorem childRegisteredB_doRegister (d : Dom) (now : Nat) (opts : FocusableOptions)
    (e : Nat) (s : FMState) (h : childRegisteredB s = true) :
    childRegisteredB (doRegister d now opts e s) = true := by
  unfold childRegisteredB at h ⊢
  rw [List.all_eq_true] at h ⊢
  intro p hp
  rw [doRegister_pendings, resolvePR_pendings] at hp
  have hp1 : p ∈ (doRegisterMid d now opts e s).pendingRelationships :=
    (List.mem_filter.mp hp).1
  rw [doRegisterMid_pendings] at hp1
  have hiso : (mapGet (doRegister d now opts e s).elementRegistry p.childElement).isSome
      = (mapGet (doRegisterMid d now opts e s).elementRegistry p.childElement).isSome := by
    rw [doRegister_registry]
    exact resolvePR_registry_isSome d (doRegisterMid d now opts e s) opts.id e p.childElement
  rw [hiso]
  have hmain : p ∈ s.pendingRelationships →
      (mapGet (doRegisterMid d now opts e s).elementRegistry p.childElement).isSome
        = true := by
    intro hmem
    have hs := h p hmem
    apply (doRegisterMid_isSome d now opts e s p.childElement).mpr
    by_cases hxe : p.childElement = e
    · exact Or.inl hxe
    · exact Or.inr ((unregisterElement_isSome s e p.childElement).mpr ⟨hxe, hs⟩)
  by_cases hcond : (hasParentId opts
      && (drParent d opts e (unregisterElement s e)).isNone) = true
  · rw [if_pos hcond] at hp1
    rcases List.mem_append.mp hp1 with hmem | hnew
    · exact hmain hmem
    · have hpe : p = ⟨e, opts.parentId.getD "", now⟩ := by simpa using hnew
      apply (doRegisterMid_isSome d now opts e s p.childElement).mpr
      exact Or.inl (by rw [hpe])
  · rw [if_neg hcond] at hp1
    exact hmain hp1

/-! ### Concrete fixtures for witnesses and counterexamples -/

/-- A DOM in which no element has a parent and everything is visible. -/
def flatDom : Dom := ⟨fun _ => none, 0, fun _ => true⟩

/-- Options with only an id and an optional parent id (the legacy shape). -/
def basicOptions (id : Focusable) (parentId : Option Focusable) : FocusableOptions :=
  ⟨id, parentId, none, none, none, none, false, false, false⟩

/-- A state with one element registered under "L" whose declared parent "P"
is unresolved, so one pending relationship is queued. -/
def sPend : FMState := doRegister flatDom 5 (basicOptions "L" (some "P")) 1 initialState

/-- A parent "par" (element 10) with three children 11, 12, 13 at tab
indexes 0, 1, 2. -/
def famOptions (t : Int) : FocusableOptions :=
  ⟨"kid", some "par", none, none, some t, none, false, false, false⟩

def sFam : FMState :=
  doRegister flatDom 4 (famOptions 2) 13
    (doRegister flatDom 3 (famOptions 1) 12
      (doRegister flatDom 2 (famOptions 0) 11
        (doRegister flatDom 1 (basicOptions "par" none) 10 initialState)))

def mFamPar : ElementMetadata := ⟨"par", none, [11, 12, 13], 1, basicOptions "par" none⟩

def mFam11 : ElementMetadata := ⟨"kid", some 10, [], 2, famOptions 0⟩

/-- Options with payload and focus/blur callbacks present. -/
def richOptions : FocusableOptions := ⟨"x", none, some 42, none, none, none, false, true, true⟩

def mRich : ElementMetadata := ⟨"x", none, [], 5, richOptions⟩

/-- A state in which element 3 is registered with callbacks and is active. -/
def sC10 : FMState :=
  setActive flatDom (FocusTarget.elem 3) (doRegister flatDom 5 richOptions 3 initialState)

/-! ### Claim C1 -/

/-- C1 counterexample: in bulk mode, `unregister "L"` removes element 1
(registered under "L") from the registry, yet the pending relationship whose
child is that removed element survives (its declared parent id "P" differs
from "L").  The claim's assertion that bulk unregistration drops every
pending relationship whose child is a removed element is false. -/
theorem C1_counterexample :
    (unregister "L" none sPend).pendingRelationships = [⟨1, "P", 5⟩]
      ∧ mapGet (unregister "L" none sPend).elementRegistry 1 = none := by
  constructor <;> rfl

/-- C1 (amended): `unregister` drops exactly the pending relationships whose
declared parent id equals the given logical id — in BOTH modes — plus, in
specific-element mode, those whose child is the given element.  Entries whose
child was removed but whose declared parent id differs are retained. -/
theorem C1_unregister_pending_drops (lid : Focusable) (eo : Option Nat) (s : FMState) :
    (∀ p ∈ (unregister lid eo s).pendingRelationships,
      p ∈ s.pendingRelationships ∧ p.parentId ≠ lid ∧
        ∀ e, eo = some e → p.childElement ≠ e) ∧
    (∀ p ∈ s.pendingRelationships, p.parentId ≠ lid →
      (∀ e, eo = some e → p.childElement ≠ e) →
      p ∈ (unregister lid eo s).pendingRelationships) :=
  ⟨fun p hp => unregister_pendings_mem lid eo s p hp,
   fun p hp h1 h2 => unregister_pendings_mem_of lid eo s p hp h1 h2⟩

/-- C1 witness: the amended theorem applied at a concrete state; an entry
with parent id "P", child 1 survives `unregister "X" (some 2)`. -/
theorem C1_witness :
    (⟨1, "P", 5⟩ : PendingRelationship)
      ∈ (unregister "X" (some 2) sPend).pendingRelationships :=
  (C1_unregister_pending_drops "X" (some 2) sPend).2 ⟨1, "P", 5⟩ (by decide)
    (by decide) (fun e he => by cases he; decide)

/-! ### Claim C2 -/

/-- C2 counterexample: the spec's pending-queue invariant holds after one
deferred registration, but bulk `unregister "L"` removes the child while its
pending entry (declared parent "P" ≠ "L") survives, leaving an entry whose
child is no longer registered.  The invariant is not preserved by every
public operation. -/
theorem C2_counterexample :
    pendingInvB sPend = true ∧ pendingInvB (unregister "L" none sPend) = false := by
  constructor <;> rfl

/-- C2 (amended): the full invariant (registered child, declared parent id
unresolved) is preserved by `setActive` and by specific-element `unregister`;
the child-still-registered half is additionally preserved by `doRegister`
(both register overloads route here) and the navigation operations.  Bulk
unregister is the exception (see the counterexample); lazy resolution during
navigation can violate the unresolved-parent half. -/
theorem C2_pending_invariant_amended :
    (∀ (d : Dom) (t : FocusTarget) (s : FMState),
      pendingInvB s = true → pendingInvB (setActive d t s) = true) ∧
    (∀ (lid : Focusable) (e : Nat) (s : FMState),
      pendingInvB s = true → pendingInvB (unregister lid (some e) s) = true) ∧
    (∀ (d : Dom) (now : Nat) (opts : FocusableOptions) (e : Nat) (s : FMState),
      childRegisteredB s = true → childRegisteredB (doRegister d now opts e s) = true) ∧
    (∀ (lid : Focusable) (e : Nat) (s : FMState),
      childRegisteredB s = true → childRegisteredB (unregister lid (some e) s) = true) ∧
    (∀ (d : Dom) (t : FocusTarget) (s : FMState),
      childRegisteredB s = true → childRegisteredB (setActive d t s) = true) ∧
    (∀ (d : Dom) (fwd : Bool) (s : FMState),
      childRegisteredB s = true → childRegisteredB (focusSibling d fwd s) = true) ∧
    (∀ (d : Dom) (s : FMState),
      childRegisteredB s = true → childRegisteredB (focusParent d s) = true) ∧
    (∀ (d : Dom) (s : FMState),
      childRegisteredB s = true → childRegisteredB (focusFirstChild d s) = true) := by
  refine ⟨?_, ?_, ?_, ?_, ?_, ?_, ?_, ?_⟩
  · intro d t s h
    rw [pendingInvB_setActive]
    exact h
  · intro lid e s h
    exact pendingInvB_unregister_some lid e s h
  · intro d now opts e s h
    exact childRegisteredB_doRegister d now opts e s h
  · intro lid e s h
    exact childRegisteredB_unregister_some lid e s h
  · intro d t s h
    rw [childRegisteredB_setActive]
    exact h
  · intro d fwd s h
    rw [childRegisteredB_focusSibling]
    exact h
  · intro d s h
    rw [childRegisteredB_focusParent]
    exact h
  · intro d s h
    rw [childRegisteredB_focusFirstChild]
    exact h

/-- C2 witness: the amended theorem applied at a concrete state. -/
theorem C2_witness : pendingInvB (unregister "X" (some 2) sPend) = true :=
  C2_pending_invariant_amended.2.1 "X" 2 sPend (by rfl)

/-! ### Claim C9 -/

/-- A state where element 1 registered under "L" declaring parent id "L":
the parent lookup runs before insertion, so the relationship defers; the
resolution pass then finds child 1 registered and `contains 1 1` true
(inclusive), making 1 its own parent and its own child. -/
def sSelf : FMState := doRegister flatDom 3 (basicOptions "L" (some "L")) 1 initialState

/-- C9 counterexample: a single call `register({id:"L", parentId:"L"}, 1)`
self-links element 1 (it becomes its own parent and appears in its own
children list); unregistering this parent then removes the "child" from the
registry outright, contradicting the claim's "no child is removed". -/
theorem C9_counterexample :
    (∃ m, mapGet sSelf.elementRegistry 1 = some m ∧ 1 ∈ m.children
      ∧ m.parentElement = some 1)
    ∧ mapGet (unregister "L" (some 1) sSelf).elementRegistry 1 = none := by
  refine ⟨⟨⟨"L", some 1, [1], 3, basicOptions "L" (some "L")⟩, rfl, ?_, rfl⟩, rfl⟩
  decide

/-- C9 (amended): unregistering a registered P removes P itself; every child
c ≠ P stays registered with `parentElement` cleared and, when c is not
simultaneously P's own parent, every other field unchanged; when c is also
P's parent (a reachable cycle), P is additionally spliced out of c's
children list; P's parent, when not itself a child of P, keeps all fields
except P spliced from its children; elements that are neither P, nor a child
of P, nor P's parent are unchanged.  A child equal to P itself (the
self-link, reachable in one `register` call) is NOT kept registered: it is
removed together with P. -/
theorem C9_unregister_orphans_amended (lid : Focusable) (s : FMState) (P : Nat)
    (mp : ElementMetadata) (hmp : mapGet s.elementRegistry P = some mp) :
    (∀ c ∈ mp.children, c ≠ P → mp.parentElement ≠ some c →
      ∀ mc, mapGet s.elementRegistry c = some mc →
        mapGet (unregister lid (some P) s).elementRegistry c
          = some (setParentElement mc none)) ∧
    (∀ c ∈ mp.children, c ≠ P → mp.parentElement = some c →
      ∀ mc, mapGet s.elementRegistry c = some mc →
        mapGet (unregister lid (some P) s).elementRegistry c
          = some (setParentElement (removeChild mc P) none)) ∧
    (∀ x, x ≠ P → x ∉ mp.children → mp.parentElement = some x →
      ∀ mx, mapGet s.elementRegistry x = some mx →
        mapGet (unregister lid (some P) s).elementRegistry x
          = some (removeChild mx P)) ∧
    (∀ x, x ≠ P → x ∉ mp.children → mp.parentElement ≠ some x →
      mapGet (unregister lid (some P) s).elementRegistry x
        = mapGet s.elementRegistry x) ∧
    mapGet (unregister lid (some P) s).elementRegistry P = none := by
  refine ⟨?_, ?_, ?_, ?_, ?_⟩
  · intro c hc hcP hpc mc hmc
    rw [unregister_registry_some, unregisterElement_lookup s P mp hmp c hcP, hmc,
      Option.map_some']
    congr 1
    simp only [ueTransform]
    rw [if_neg hpc]
    have h2 : c ∈ ueKids mp P := by
      unfold ueKids
      by_cases hself : mp.parentElement = some P
      · rw [if_pos hself]
        show c ∈ mp.children.erase P
        exact (List.mem_erase_of_ne hcP).mpr hc
      · rw [if_neg hself]
        exact hc
    rw [if_pos h2]
  · intro c hc hcP hpc mc hmc
    rw [unregister_registry_some, unregisterElement_lookup s P mp hmp c hcP, hmc,
      Option.map_some']
    congr 1
    simp only [ueTransform]
    rw [if_pos hpc]
    have h2 : c ∈ ueKids mp P := by
      unfold ueKids
      have hself : ¬(mp.parentElement = some P) := by
        rw [hpc]
        intro hh
        injection hh with hh2
        exact hcP hh2
      rw [if_neg hself]
      exact hc
    rw [if_pos h2]
  · intro x hxP hxch hpx mx hmx
    rw [unregister_registry_some, unregisterElement_lookup s P mp hmp x hxP, hmx,
      Option.map_some']
    congr 1
    simp only [ueTransform]
    rw [if_pos hpx]
    have h2 : x ∉ ueKids mp P := by
      unfold ueKids
      have hself : ¬(mp.parentElement = some P) := by
        rw [hpx]
        intro hh
        injection hh with hh2
        exact hxP hh2
      rw [if_neg hself]
      exact hxch
    rw [if_neg h2]
  · intro x hxP hxch hpx
    rw [unregister_registry_some, unregisterElement_lookup s P mp hmp x hxP]
    cases hmx : mapGet s.elementRegistry x with
    | none => rfl
    | some mx =>
      rw [Option.map_some']
      congr 1
      simp only [ueTransform]
      rw [if_neg hpx]
      have h2 : x ∉ ueKids mp P := by
        intro hx
        apply hxch
        unfold ueKids at hx
        by_cases hself : mp.parentElement = some P
        · rw [if_pos hself] at hx
          exact List.mem_of_mem_erase hx
        · rw [if_neg hself] at hx
          exact hx
      rw [if_neg h2]
  · rw [unregister_registry_some]
    exact unregisterElement_lookup_self s P

/-- C9 witness: unregistering parent 10 leaves acyclic child 11 registered
with its parent cleared and all other fields intact, and removes 10 itself. -/
theorem C9_witness :
    mapGet (unregister "par" (some 10) sFam).elementRegistry 11
        = some (setParentElement mFam11 none)
      ∧ mapGet (unregister "par" (some 10) sFam).elementRegistry 10 = none :=
  ⟨(C9_unregister_orphans_amended "par" sFam 10 mFamPar (by rfl)).1 11 (by decide)
      (by decide) (by decide) mFam11 (by rfl),
   (C9_unregister_orphans_amended "par" sFam 10 mFamPar (by rfl)).2.2.2.2⟩

/-! ### Claim C10 -/

/-- C10: when the target of `setActive` is already the active element and has
both callbacks, `onBlur` fires and then `onFocus` fires, both with the
element's own context, and the element stays active; the registry is
untouched. -/
theorem C10_setActive_refire (d : Dom) (s : FMState) (e : Nat) (m : ElementMetadata)
    (hcur : s.currentElement = some e) (hm : mapGet s.elementRegistry e = some m)
    (hblur : m.options.hasOnBlur = true) (hfocus : m.options.hasOnFocus = true) :
    (setActive d (FocusTarget.elem e) s).currentElement = some e ∧
    (setActive d (FocusTarget.elem e) s).events
      = s.events ++ [FocusEvent.blur e m.logicalId m.options.payload,
          FocusEvent.focus e m.logicalId m.options.payload] ∧
    (setActive d (FocusTarget.elem e) s).elementRegistry = s.elementRegistry := by
  unfold setActive
  simp [hm, hcur, hblur, hfocus]

/-- C10 witness: the theorem applied to a concrete active element with both
callbacks; re-activation fires blur then focus with its own context. -/
theorem C10_witness :
    (setActive flatDom (FocusTarget.elem 3) sC10).currentElement = some 3 ∧
    (setActive flatDom (FocusTarget.elem 3) sC10).events
      = sC10.events ++ [FocusEvent.blur 3 "x" (some 42), FocusEvent.focus 3 "x" (some 42)] ∧
    (setActive flatDom (FocusTarget.elem 3) sC10).elementRegistry = sC10.elementRegistry :=
  C10_setActive_refire flatDom sC10 3 mRich rfl rfl rfl rfl

/-! ### Claim C8 -/

theorem focusSibling_noop (d : Dom) (fwd : Bool) (s : FMState)
    (h : ∀ c, s.currentElement = some c → mapGet s.elementRegistry c = none) :
    focusSibling d fwd s = s := by
  cases hcur : s.currentElement with
  | none => simp [focusSibling, hcur]
  | some cur =>
    have hc := h cur hcur
    simp only [focusSibling, hcur]
    rw [ensureRelationships_not_registered d s cur hc]
    simp [hc]

theorem focusParent_noop (d : Dom) (s : FMState)
    (h : ∀ c, s.currentElement = some c → mapGet s.elementRegistry c = none) :
    focusParent d s = s := by
  cases hcur : s.currentElement with
  | none => simp [focusParent, hcur]
  | some cur =>
    have hc := h cur hcur
    simp only [focusParent, hcur]
    rw [ensureRelationships_not_registered d s cur hc]
    simp [hc]

theorem focusFirstChild_noop (d : Dom) (s : FMState)
    (h : ∀ c, s.currentElement = some c → mapGet s.elementRegistry c = none) :
    focusFirstChild d s = s := by
  cases hcur : s.currentElement with
  | none => simp [focusFirstChild, hcur]
  | some cur =>
    have hc := h cur hcur
    simp only [focusFirstChild, hcur]
    rw [ensureRelationships_not_registered d s cur hc]
    simp [hc]

theorem unregister_frame_some (lid : Focusable) (e : Nat) (s : FMState)
    (hel : mapGet s.elementRegistry e = none)
    (hcur : s.currentElement = none ∨ ∃ c cm, s.currentElement = some c
      ∧ mapGet s.elementRegistry c = some cm) :
    unregister lid (some e) s
      = ⟨s.elementRegistry, s.logicalIndex,
          s.pendingRelationships.filter (fun p =>
            p.parentId != lid && !(p.childElement == e)),
          s.currentElement, s.events⟩ := by
  unfold unregister
  dsimp only
  rw [unregisterElement_not_registered s e hel]
  rcases hcur with hnone | ⟨c, cm, hce, hcm⟩
  · simp only [hnone]
    rfl
  · have hcne : ¬(c = e) := by
      intro hh
      rw [hh, hel] at hcm
      exact Option.noConfusion hcm
    simp only [hce, hcm]
    have : (c == e) = false := by
      simp [hcne]
    simp [this]

theorem unregister_frame_bulk (lid : Focusable) (s : FMState)
    (hel : mapGet s.logicalIndex lid = none ∨ mapGet s.logicalIndex lid = some [])
    (hcur : s.currentElement = none ∨ ∃ c cm, s.currentElement = some c
      ∧ mapGet s.elementRegistry c = some cm ∧ cm.logicalId ≠ lid) :
    unregister lid none s
      = ⟨s.elementRegistry, s.logicalIndex,
          s.pendingRelationships.filter (fun p => p.parentId != lid),
          s.currentElement, s.events⟩ := by
  unfold unregister
  dsimp only
  have hs1 : (match mapGet s.logicalIndex lid with
      | some elements => elements.foldl (fun st elem => unregisterElement st elem) s
      | none => s) = s := by
    rcases hel with h | h <;> rw [h]
    rfl
  rw [hs1]
  have hfil : s.pendingRelationships.filter (fun p =>
        p.parentId != lid && ((none : Option Nat).isNone || !(some p.childElement == none)))
      = s.pendingRelationships.filter (fun p => p.parentId != lid) := by
    apply List.filter_congr
    intro p _
    simp
  rcases hcur with hnone | ⟨c, cm, hce, hcm, hid⟩
  · simp only [hnone]
    rw [show s = ⟨s.elementRegistry, s.logicalIndex, s.pendingRelationships,
      s.currentElement, s.events⟩ from rfl] at hnone ⊢
    simp only at hnone
    simp [hnone, hfil]
  · have : (cm.logicalId == lid) = false := by simp [hid]
    simp only [hce, hcm, this]
    simp [hfil, hce]

/-- C8 counterexample: `unregister "P"` where "P" has zero registered
elements is NOT a complete no-op — it still drops the pending relationship
declaring parent "P". -/
theorem C8_counterexample :
    mapGet sPend.logicalIndex "P" = none ∧ unregister "P" none sPend ≠ sPend := by
  constructor
  · rfl
  · decide

/-- C8 (amended): with an unresolvable target, `setActive` and the
navigation operations leave the state entirely unchanged and fire no
callbacks; `unregister` leaves the element registry, logical index, active
element and callback trace unchanged and fires no callbacks, but still
filters the pending queue by the given logical id (and element). -/
theorem C8_unresolvable_noops :
    (∀ (d : Dom) (s : FMState) (lid : Focusable),
      (mapGet s.logicalIndex lid = none ∨ mapGet s.logicalIndex lid = some []) →
      setActive d (FocusTarget.id lid) s = s) ∧
    (∀ (d : Dom) (s : FMState) (e : Nat), mapGet s.elementRegistry e = none →
      setActive d (FocusTarget.elem e) s = s) ∧
    (∀ (d : Dom) (fwd : Bool) (s : FMState),
      (∀ c, s.currentElement = some c → mapGet s.elementRegistry c = none) →
      focusSibling d fwd s = s ∧ focusParent d s = s ∧ focusFirstChild d s = s) ∧
    (∀ (lid : Focusable) (e : Nat) (s : FMState), mapGet s.elementRegistry e = none →
      (s.currentElement = none ∨ ∃ c cm, s.currentElement = some c
        ∧ mapGet s.elementRegistry c = some cm) →
      unregister lid (some e) s
        = ⟨s.elementRegistry, s.logicalIndex,
            s.pendingRelationships.filter (fun p =>
              p.parentId != lid && !(p.childElement == e)),
            s.currentElement, s.events⟩) ∧
    (∀ (lid : Focusable) (s : FMState),
      (mapGet s.logicalIndex lid = none ∨ mapGet s.logicalIndex lid = some []) →
      (s.currentElement = none ∨ ∃ c cm, s.currentElement = some c
        ∧ mapGet s.elementRegistry c = some cm ∧ cm.logicalId ≠ lid) →
      unregister lid none s
        = ⟨s.elementRegistry, s.logicalIndex,
            s.pendingRelationships.filter (fun p => p.parentId != lid),
            s.currentElement, s.events⟩) := by
  refine ⟨?_, ?_, ?_, ?_, ?_⟩
  · intro d s lid h
    exact setActive_id_empty d s lid h
  · intro d s e h
    exact setActive_elem_unregistered d s e h
  · intro d fwd s h
    exact ⟨focusSibling_noop d fwd s h, focusParent_noop d s h, focusFirstChild_noop d s h⟩
  · intro lid e s h1 h2
    exact unregister_frame_some lid e s h1 h2
  · intro lid s h1 h2
    exact unregister_frame_bulk lid s h1 h2

/-- C8 witness: the amended theorem at concrete inputs — activating an
unknown logical id is a no-op, and unregistering an id with no elements only
filters the pending queue. -/
theorem C8_witness :
    setActive flatDom (FocusTarget.id "Q") sPend = sPend ∧
    unregister "P" none sPend
      = ⟨sPend.elementRegistry, sPend.logicalIndex,
          sPend.pendingRelationships.filter (fun p => p.parentId != "P"),
          sPend.currentElement, sPend.events⟩ :=
  ⟨C8_unresolvable_noops.1 flatDom sPend "Q" (Or.inl rfl),
   C8_unresolvable_noops.2.2.2.2 "P" sPend (Or.inl rfl) (Or.inl rfl)⟩

/-! ### Claim C5 -/

/-- A two-element DOM: element 2 is physically inside element 1. -/
def dom21 : Dom := ⟨fun e => if e = 2 then some 1 else none, 2, fun _ => true⟩

/-- A state with a stranded pending relationship: child 2 declared parent
"P", then was removed by bulk unregister, leaving the entry queued with an
unregistered child. -/
def sStranded : FMState :=
  unregister "L" none (doRegister dom21 5 (basicOptions "L" (some "P")) 2 initialState)

/-- C5 counterexample: element 1 physically contains the pending entry's
child 2 and registers under the declared parent id "P", yet the entry is
neither linked nor removed, because its child is no longer registered — a
case the claim's wording ("every pending relationship whose declared parent
id is L and whose child is physically contained in E") includes but the code
does not resolve. -/
theorem C5_counterexample :
    dom21.contains 1 2 = true ∧
    sStranded.pendingRelationships = [⟨2, "P", 5⟩] ∧
    mapGet sStranded.elementRegistry 2 = none ∧
    (doRegister dom21 9 (basicOptions "P" none) 1 sStranded).pendingRelationships
      = [⟨2, "P", 5⟩] := by
  refine ⟨?_, ?_, ?_, ?_⟩ <;> rfl

/-- C5 (amended): after `register` completes for element E with logical id
L, every previously pending relationship whose declared parent id is L,
whose child is STILL REGISTERED, and whose child E physically contains, is
linked (child's `parentElement` becomes E, child joins E's children) and
removed from the queue; entries whose declared parent id differs or whose
child E does not contain remain queued. -/
theorem C5_register_resolves_pending (d : Dom) (now : Nat) (opts : FocusableOptions)
    (e : Nat) (s : FMState) (p : PendingRelationship)
    (hp : p ∈ s.pendingRelationships)
    (hpid : p.parentId = opts.id)
    (hcne : p.childElement ≠ e)
    (hreg : (mapGet s.elementRegistry p.childElement).isSome = true)
    (hcont : d.contains e p.childElement = true) :
    (∃ cm, mapGet (doRegister d now opts e s).elementRegistry p.childElement = some cm
      ∧ cm.parentElement = some e) ∧
    (∃ em, mapGet (doRegister d now opts e s).elementRegistry e = some em
      ∧ p.childElement ∈ em.children) ∧
    p ∉ (doRegister d now opts e s).pendingRelationships ∧
    (∀ q ∈ s.pendingRelationships,
      (q.parentId ≠ opts.id ∨ d.contains e q.childElement = false) →
      q ∈ (doRegister d now opts e s).pendingRelationships) := by
  have hpmid : p ∈ (doRegisterMid d now opts e s).pendingRelationships := by
    rw [doRegisterMid_pendings]
    by_cases hcond : (hasParentId opts
        && (drParent d opts e (unregisterElement s e)).isNone) = true
    · rw [if_pos hcond]
      exact List.mem_append_left _ hp
    · rw [if_neg hcond]
      exact hp
  have hmidso : (mapGet (doRegisterMid d now opts e s).elementRegistry
      p.childElement).isSome = true :=
    (doRegisterMid_isSome d now opts e s p.childElement).mpr
      (Or.inr ((unregisterElement_isSome s e p.childElement).mpr ⟨hcne, hreg⟩))
  have hres : resolvesB d opts.id e (doRegisterMid d now opts e s).elementRegistry p
      = true := by
    unfold resolvesB
    rw [Bool.and_eq_true, Bool.and_eq_true]
    exact ⟨⟨beq_iff_eq.mpr hpid, hmidso⟩, hcont⟩
  have hne : (mapGet (doRegisterMid d now opts e s).elementRegistry e).isSome = true := by
    rw [doRegisterMid_lookup_self]
    rfl
  have hlink := resolveFold_link d opts.id e
    (doRegisterMid d now opts e s).pendingRelationships
    ((doRegisterMid d now opts e s).elementRegistry, []) p hpmid hres hne
  refine ⟨?_, ?_, ?_, ?_⟩
  · rw [doRegister_registry]
    exact hlink.1
  · rw [doRegister_registry]
    exact hlink.2
  · rw [doRegister_pendings, resolvePR_pendings]
    intro hmem
    have := (List.mem_filter.mp hmem).2
    rw [hres] at this
    simp at this
  · intro q hq hq2
    rw [doRegister_pendings, resolvePR_pendings]
    apply List.mem_filter.mpr
    have hqmid : q ∈ (doRegisterMid d now opts e s).pendingRelationships := by
      rw [doRegisterMid_pendings]
      by_cases hcond : (hasParentId opts
          && (drParent d opts e (unregisterElement s e)).isNone) = true
      · rw [if_pos hcond]
        exact List.mem_append_left _ hq
      · rw [if_neg hcond]
        exact hq
    refine ⟨hqmid, ?_⟩
    have hfalse : resolvesB d opts.id e (doRegisterMid d now opts e s).elementRegistry q
        = false := by
      unfold resolvesB
      rcases hq2 with h | h
      · have : (q.parentId == opts.id) = false := by
          simp [h]
        rw [this]
        rfl
      · have : isValidParentChild d e q.childElement = false := h
        rw [this]
        simp
    rw [hfalse]
    rfl

/-- C5 witness: the orphan self-heal — B (element 2) registered first with
parent id "P" deferred; A (element 1, carrying "P", physically containing 2)
registers later; 2's parent resolves to 1 and the entry leaves the queue
without 2 re-registering. -/
theorem C5_witness :
    (∃ cm, mapGet (doRegister dom21 9 (basicOptions "P" none) 1
        (doRegister dom21 5 (basicOptions "L" (some "P")) 2 initialState)).elementRegistry 2
        = some cm ∧ cm.parentElement = some 1) ∧
    (∃ em, mapGet (doRegister dom21 9 (basicOptions "P" none) 1
        (doRegister dom21 5 (basicOptions "L" (some "P")) 2 initialState)).elementRegistry 1
        = some em ∧ (2 : Nat) ∈ em.children) ∧
    (⟨2, "P", 5⟩ : PendingRelationship) ∉ (doRegister dom21 9 (basicOptions "P" none) 1
        (doRegister dom21 5 (basicOptions "L" (some "P")) 2 initialState)).pendingRelationships ∧
    (∀ q ∈ (doRegister dom21 5 (basicOptions "L" (some "P")) 2
        initialState).pendingRelationships,
      (q.parentId ≠ "P" ∨ dom21.contains 1 q.childElement = false) →
      q ∈ (doRegister dom21 9 (basicOptions "P" none) 1
        (doRegister dom21 5 (basicOptions "L" (some "P")) 2 initialState)).pendingRelationships) := by
  have h := C5_register_resolves_pending dom21 9 (basicOptions "P" none) 1
    (doRegister dom21 5 (basicOptions "L" (some "P")) 2 initialState)
    ⟨2, "P", 5⟩ (by decide) rfl (by decide) (by rfl) (by rfl)
  exact h

/-! ### Claim C3 -/

theorem bestFold_spec (f : Nat → Rat) : ∀ (l : List Nat) (b : Nat),
    f b ≤ f ((l.foldl (fun best c => if best.2 < f c then (c, f c) else best) (b, f b)).1) ∧
    (∀ x ∈ l,
      f x ≤ f ((l.foldl (fun best c => if best.2 < f c then (c, f c) else best) (b, f b)).1)) ∧
    ((l.foldl (fun best c => if best.2 < f c then (c, f c) else best) (b, f b)).1 = b ∨
      ∃ l1 l2, l = l1 ++
          ((l.foldl (fun best c => if best.2 < f c then (c, f c) else best) (b, f b)).1) :: l2
        ∧ f b < f ((l.foldl (fun best c => if best.2 < f c then (c, f c) else best) (b, f b)).1)
        ∧ ∀ x ∈ l1,
            f x < f ((l.foldl (fun best c => if best.2 < f c then (c, f c) else best) (b, f b)).1)) := by
  intro l
  induction l with
  | nil =>
    intro b
    exact ⟨le_refl _, fun x hx => absurd hx (List.not_mem_nil x), Or.inl rfl⟩
  | cons c rest ih =>
    intro b
    rw [List.foldl_cons]
    by_cases hbc : f b < f c
    · have hstep : (if (b, f b).2 < f c then (c, f c) else (b, f b)) = (c, f c) := by
        simp [hbc]
      rw [hstep]
      obtain ⟨ih1, ih2, ih3⟩ := ih c
      refine ⟨le_of_lt (lt_of_lt_of_le hbc ih1), ?_, ?_⟩
      · intro x hx
        rcases List.mem_cons.mp hx with hxc | hxr
        · rw [hxc]
          exact ih1
        · exact ih2 x hxr
      · rcases ih3 with hrc | ⟨l1, l2, hdec, hlt, hall⟩
        · refine Or.inr ⟨[], rest, ?_, ?_, ?_⟩
          · rw [hrc]
            rfl
          · rw [hrc]
            exact hbc
          · intro x hx
            exact absurd hx (List.not_mem_nil x)
        · refine Or.inr ⟨c :: l1, l2, ?_, lt_trans hbc hlt, ?_⟩
          · rw [List.cons_append, ← hdec]
          · intro x hx
            rcases List.mem_cons.mp hx with hxc | hxl
            · rw [hxc]
              exact hlt
            · exact hall x hxl
    · have hstep : (if (b, f b).2 < f c then (c, f c) else (b, f b)) = (b, f b) := by
        simp [hbc]
      rw [hstep]
      obtain ⟨ih1, ih2, ih3⟩ := ih b
      refine ⟨ih1, ?_, ?_⟩
      · intro x hx
        rcases List.mem_cons.mp hx with hxc | hxr
        · rw [hxc]
          exact le_trans (not_lt.mp hbc) ih1
        · exact ih2 x hxr
      · rcases ih3 with hrc | ⟨l1, l2, hdec, hlt, hall⟩
        · exact Or.inl hrc
        · refine Or.inr ⟨c :: l1, l2, ?_, hlt, ?_⟩
          · rw [List.cons_append, ← hdec]
          · intro x hx
            rcases List.mem_cons.mp hx with hxc | hxl
            · rw [hxc]
              exact lt_of_le_of_lt (not_lt.mp hbc) hlt
            · exact hall x hxl

theorem selectBestCandidate_spec (d : Dom) (s : FMState) (c0 : Nat) (rest : List Nat) :
    ∃ r l1 l2, selectBestCandidate d s (c0 :: rest) = some r
      ∧ c0 :: rest = l1 ++ r :: l2
      ∧ (∀ x ∈ c0 :: rest, scoreElement d s x ≤ scoreElement d s r)
      ∧ (∀ x ∈ l1, scoreElement d s x < scoreElement d s r) := by
  obtain ⟨h1, h2, h3⟩ := bestFold_spec (scoreElement d s) (c0 :: rest) c0
  refine ⟨((c0 :: rest).foldl (fun best c =>
      if best.2 < scoreElement d s c then (c, scoreElement d s c) else best)
      (c0, scoreElement d s c0)).1, ?_⟩
  rcases h3 with hrc | ⟨l1, l2, hdec, _, hall⟩
  · refine ⟨[], rest, rfl, ?_, h2, fun x hx => absurd hx (List.not_mem_nil x)⟩
    rw [hrc]
    rfl
  · exact ⟨l1, l2, rfl, hdec, h2, hall⟩

theorem setActive_id_selects (d : Dom) (s : FMState) (lid : Focusable) (cs : List Nat)
    (r : Nat) (mr : ElementMetadata) (hli : mapGet s.logicalIndex lid = some cs)
    (hne : cs.isEmpty = false) (hsel : selectBestCandidate d s cs = some r)
    (hmr : mapGet s.elementRegistry r = some mr) :
    (setActive d (FocusTarget.id lid) s).currentElement = some r := by
  unfold setActive
  simp [hli, hne, hsel, hmr]

theorem scoreElement_ge_1000 (d : Dom) (s : FMState) (a : Nat) (ma : ElementMetadata)
    (hma : mapGet s.elementRegistry a = some ma)
    (hdis : ma.options.disabled.getD false = false)
    (hprio : ma.options.priority.getD 0 = 1) :
    (1000 : Rat) ≤ scoreElement d s a := by
  simp only [scoreElement, hma, hdis, hprio, Bool.false_eq_true, if_false]
  have h1 : (0 : Rat) ≤ if d.visible a then 100 else 0 := by
    split <;> norm_num
  have h2 : (0 : Rat) ≤ (ma.registrationTime : Rat) / 1000000 := by positivity
  have h3 : ((1 : Int) : Rat) * 1000 = 1000 := by norm_num
  linarith

theorem scoreElement_disabled (d : Dom) (s : FMState) (x : Nat) (mx : ElementMetadata)
    (hmx : mapGet s.elementRegistry x = some mx)
    (hdis : mx.options.disabled.getD false = true) :
    scoreElement d s x = -1000 := by
  simp [scoreElement, hmx, hdis]

theorem scoreElement_unregistered (d : Dom) (s : FMState) (x : Nat)
    (hmx : mapGet s.elementRegistry x = none) : scoreElement d s x = 0 := by
  simp [scoreElement, hmx]

/-- C3: `selectBestCandidate` picks a candidate of maximal score, and on
ties the earliest in the candidate list wins (everything strictly before the
winner scores strictly less); the score is exactly
`disabled ? -1000 : priority*1000 + (visible ? 100 : 0) + registrationTime/1000000`;
consequently `setActive` on a logical id owning an enabled priority-1
candidate activates a non-disabled element, and with exactly one disabled
and one enabled priority-1 candidate it activates the enabled one. -/
theorem C3_candidate_selection :
    (∀ (d : Dom) (s : FMState) (c0 : Nat) (rest : List Nat),
      ∃ r l1 l2, selectBestCandidate d s (c0 :: rest) = some r
        ∧ c0 :: rest = l1 ++ r :: l2
        ∧ (∀ x ∈ c0 :: rest, scoreElement d s x ≤ scoreElement d s r)
        ∧ (∀ x ∈ l1, scoreElement d s x < scoreElement d s r)) ∧
    (∀ (d : Dom) (s : FMState) (e : Nat) (m : ElementMetadata),
      mapGet s.elementRegistry e = some m →
      scoreElement d s e = if m.options.disabled.getD false then -1000
        else ((m.options.priority.getD 0 : Int) : Rat) * 1000
          + (if d.visible e then 100 else 0) + (m.registrationTime : Rat) / 1000000) ∧
    (∀ (d : Dom) (s : FMState) (lid : Focusable) (cs : List Nat) (a : Nat)
        (ma : ElementMetadata),
      mapGet s.logicalIndex lid = some cs → a ∈ cs →
      mapGet s.elementRegistry a = some ma →
      ma.options.disabled.getD false = false → ma.options.priority.getD 0 = 1 →
      ∃ r mr, (setActive d (FocusTarget.id lid) s).currentElement = some r
        ∧ mapGet s.elementRegistry r = some mr
        ∧ mr.options.disabled.getD false = false) ∧
    (∀ (d : Dom) (s : FMState) (lid : Focusable) (x a : Nat)
        (mx ma : ElementMetadata),
      (mapGet s.logicalIndex lid = some [x, a] ∨ mapGet s.logicalIndex lid = some [a, x]) →
      mapGet s.elementRegistry x = some mx → mx.options.disabled.getD false = true →
      mapGet s.elementRegistry a = some ma → ma.options.disabled.getD false = false →
      ma.options.priority.getD 0 = 1 →
      (setActive d (FocusTarget.id lid) s).currentElement = some a) := by
  have hmain : ∀ (d : Dom) (s : FMState) (cs : List Nat) (a : Nat)
      (ma : ElementMetadata), a ∈ cs →
      mapGet s.elementRegistry a = some ma →
      ma.options.disabled.getD false = false → ma.options.priority.getD 0 = 1 →
      ∃ r, selectBestCandidate d s cs = some r ∧ r ∈ cs
        ∧ (1000 : Rat) ≤ scoreElement d s r := by
    intro d s cs a ma hmem hma hdis hprio
    cases cs with
    | nil => exact absurd hmem (List.not_mem_nil a)
    | cons c0 rest =>
      obtain ⟨r, l1, l2, hsel, hdec, hmax, _⟩ := selectBestCandidate_spec d s c0 rest
      refine ⟨r, hsel, ?_, ?_⟩
      · rw [hdec]
        exact List.mem_append_right l1 (List.mem_cons_self r l2)
      · exact le_trans (scoreElement_ge_1000 d s a ma hma hdis hprio) (hmax a hmem)
  refine ⟨?_, ?_, ?_, ?_⟩
  · intro d s c0 rest
    exact selectBestCandidate_spec d s c0 rest
  · intro d s e m hm
    simp only [scoreElement, hm]
  · intro d s lid cs a ma hli hmem hma hdis hprio
    obtain ⟨r, hsel, hrmem, hge⟩ := hmain d s cs a ma hmem hma hdis hprio
    cases hmr : mapGet s.elementRegistry r with
    | none =>
      rw [scoreElement_unregistered d s r hmr] at hge
      norm_num at hge
    | some mr =>
      cases hd : mr.options.disabled.getD false with
      | true =>
        rw [scoreElement_disabled d s r mr hmr hd] at hge
        norm_num at hge
      | false =>
        have hne : cs.isEmpty = false := by
          cases cs
          · exact absurd hmem (List.not_mem_nil a)
          · rfl
        exact ⟨r, mr, setActive_id_selects d s lid cs r mr hli hne hsel hmr, hmr, hd⟩
  · intro d s lid x a mx ma hli hmx hdx hma hda hprio
    have hane : a ≠ x := by
      intro hh
      rw [hh, hmx] at hma
      injection hma with h2
      rw [h2, hda] at hdx
      exact Bool.noConfusion hdx
    rcases hli with hli | hli
    · obtain ⟨r, hsel, hrmem, hge⟩ := hmain d s [x, a] a ma (by simp) hma hda hprio
      have hrx : r ≠ x := by
        intro hh
        rw [hh, scoreElement_disabled d s x mx hmx hdx] at hge
        norm_num at hge
      have hra : r = a := by
        rcases (by simpa using hrmem : r = x ∨ r = a) with h | h
        · exact absurd h hrx
        · exact h
      rw [← hra]
      exact setActive_id_selects d s lid [x, a] r ma hli rfl hsel (hra ▸ hma)
    · obtain ⟨r, hsel, hrmem, hge⟩ := hmain d s [a, x] a ma (by simp) hma hda hprio
      have hrx : r ≠ x := by
        intro hh
        rw [hh, scoreElement_disabled d s x mx hmx hdx] at hge
        norm_num at hge
      have hra : r = a := by
        rcases (by simpa using hrmem : r = a ∨ r = x) with h | h
        · exact h
        · exact absurd h hrx
      rw [← hra]
      exact setActive_id_selects d s lid [a, x] r ma hli rfl hsel (hra ▸ hma)

/-! ### Claim C6 -/

theorem frpFold_spec (s : FMState) : ∀ (l : List Nat) (bt : Option Nat × Nat),
    (∀ bb, bt.1 = some bb → ∃ mb, mapGet s.elementRegistry bb = some mb
      ∧ mb.registrationTime = bt.2) →
    (∀ bb, (l.foldl (frpStep s) bt).1 = some bb →
      ∃ mb, mapGet s.elementRegistry bb = some mb
        ∧ mb.registrationTime = (l.foldl (frpStep s) bt).2) ∧
    bt.2 ≤ (l.foldl (frpStep s) bt).2 ∧
    (∀ x ∈ l, ∀ mx, mapGet s.elementRegistry x = some mx →
      mx.registrationTime ≤ (l.foldl (frpStep s) bt).2) ∧
    (l.foldl (frpStep s) bt = bt ∨
      ∃ r l1 l2, (l.foldl (frpStep s) bt).1 = some r ∧ l = l1 ++ r :: l2
        ∧ bt.2 < (l.foldl (frpStep s) bt).2
        ∧ (∀ x ∈ l1, ∀ mx, mapGet s.elementRegistry x = some mx →
            mx.registrationTime < (l.foldl (frpStep s) bt).2)) := by
  intro l
  induction l with
  | nil =>
    intro bt hb
    exact ⟨hb, le_refl _, fun x hx => absurd hx (List.not_mem_nil x), Or.inl rfl⟩
  | cons a rest ih =>
    intro bt hb
    rw [List.foldl_cons]
    cases ha : mapGet s.elementRegistry a with
    | none =>
      rw [show frpStep s bt a = bt by simp [frpStep, ha]]
      obtain ⟨ih1, ih2, ih3, ih4⟩ := ih bt hb
      refine ⟨ih1, ih2, ?_, ?_⟩
      · intro x hx mx hmx
        rcases List.mem_cons.mp hx with hxa | hxr
        · rw [hxa, ha] at hmx
          exact Option.noConfusion hmx
        · exact ih3 x hxr mx hmx
      · rcases ih4 with h | ⟨r, l1, l2, hr1, hdec, hlt, hstrict⟩
        · exact Or.inl h
        · refine Or.inr ⟨r, a :: l1, l2, hr1, by rw [List.cons_append, ← hdec], hlt, ?_⟩
          intro x hx mx hmx
          rcases List.mem_cons.mp hx with hxa | hxl
          · rw [hxa, ha] at hmx
            exact Option.noConfusion hmx
          · exact hstrict x hxl mx hmx
    | some ma =>
      by_cases ht : bt.2 < ma.registrationTime
      · rw [show frpStep s bt a = (some a, ma.registrationTime) by simp [frpStep, ha, ht]]
        have hseed : ∀ bb, (some a, ma.registrationTime).1 = some bb →
            ∃ mb, mapGet s.elementRegistry bb = some mb
              ∧ mb.registrationTime = (some a, ma.registrationTime).2 := by
          intro bb hbb
          injection hbb with h2
          exact ⟨ma, by rw [← h2, ha], rfl⟩
        obtain ⟨ih1, ih2, ih3, ih4⟩ := ih (some a, ma.registrationTime) hseed
        refine ⟨ih1, le_trans (le_of_lt ht) ih2, ?_, ?_⟩
        · intro x hx mx hmx
          rcases List.mem_cons.mp hx with hxa | hxr
          · rw [hxa, ha] at hmx
            injection hmx with h2
            rw [← h2]
            exact ih2
          · exact ih3 x hxr mx hmx
        · rcases ih4 with h | ⟨r, l1, l2, hr1, hdec, hlt, hstrict⟩
          · refine Or.inr ⟨a, [], rest, ?_, rfl, ?_, ?_⟩
            · rw [h]
            · rw [h]
              exact ht
            · intro x hx
              exact absurd hx (List.not_mem_nil x)
          · refine Or.inr ⟨r, a :: l1, l2, hr1,
              by rw [List.cons_append, ← hdec], lt_trans ht hlt, ?_⟩
            intro x hx mx hmx
            rcases List.mem_cons.mp hx with hxa | hxl
            · rw [hxa, ha] at hmx
              injection hmx with h2
              rw [← h2]
              exact hlt
            · exact hstrict x hxl mx hmx
      · rw [show frpStep s bt a = bt by simp [frpStep, ha, ht]]
        obtain ⟨ih1, ih2, ih3, ih4⟩ := ih bt hb
        refine ⟨ih1, ih2, ?_, ?_⟩
        · intro x hx mx hmx
          rcases List.mem_cons.mp hx with hxa | hxr
          · rw [hxa, ha] at hmx
            injection hmx with h2
            rw [← h2]
            exact le_trans (not_lt.mp ht) ih2
          · exact ih3 x hxr mx hmx
        · rcases ih4 with h | ⟨r, l1, l2, hr1, hdec, hlt, hstrict⟩
          · exact Or.inl h
          · refine Or.inr ⟨r, a :: l1, l2, hr1,
              by rw [List.cons_append, ← hdec], hlt, ?_⟩
            intro x hx mx hmx
            rcases List.mem_cons.mp hx with hxa | hxl
            · rw [hxa, ha] at hmx
              injection hmx with h2
              rw [← h2]
              exact lt_of_le_of_lt (not_lt.mp ht) hlt
            · exact hstrict x hxl mx hmx

/-- Two same-id registrations with equal registration times. -/
def sTie : FMState :=
  doRegister flatDom 7 (basicOptions "P" none) 2
    (doRegister flatDom 7 (basicOptions "P" none) 1 initialState)

/-- C6 counterexample: elements 1 and 2 share logical id "P" with equal
registration times; element 2 is the most recently registered (later in the
bucket), but the lookup returns element 1 — on ties the earliest registered
candidate wins, not the most recent. -/
theorem C6_counterexample :
    mapGet sTie.logicalIndex "P" = some [1, 2] ∧
    (mapGet sTie.elementRegistry 1).map ElementMetadata.registrationTime = some 7 ∧
    (mapGet sTie.elementRegistry 2).map ElementMetadata.registrationTime = some 7 ∧
    findRegisteredParent sTie "P" = some 1 := by
  refine ⟨?_, ?_, ?_, ?_⟩ <;> rfl

/-- C6 (amended): when the declared parent id's bucket contains a registered
candidate with positive registration time, `findRegisteredParent` returns a
registered candidate of maximal registration time, and every candidate
earlier in the bucket has a strictly smaller time — i.e. on ties the
EARLIEST registered candidate wins, not the most recent. -/
theorem C6_findRegisteredParent_spec (s : FMState) (pid : Focusable) (cs : List Nat)
    (hli : mapGet s.logicalIndex pid = some cs)
    (hpos : ∃ c ∈ cs, ∃ mc, mapGet s.elementRegistry c = some mc
      ∧ 0 < mc.registrationTime) :
    ∃ r mr l1 l2, findRegisteredParent s pid = some r
      ∧ mapGet s.elementRegistry r = some mr
      ∧ cs = l1 ++ r :: l2
      ∧ (∀ x ∈ cs, ∀ mx, mapGet s.elementRegistry x = some mx →
          mx.registrationTime ≤ mr.registrationTime)
      ∧ (∀ x ∈ l1, ∀ mx, mapGet s.elementRegistry x = some mx →
          mx.registrationTime < mr.registrationTime) := by
  obtain ⟨c, hcmem, mc, hmc, hcpos⟩ := hpos
  have hne : cs.isEmpty = false := by
    cases cs
    · exact absurd hcmem (List.not_mem_nil c)
    · rfl
  obtain ⟨hseed, hle, hmax, hdec⟩ := frpFold_spec s cs ((none : Option Nat), 0)
    (fun bb hbb => Option.noConfusion hbb)
  have hfr : findRegisteredParent s pid = (cs.foldl (frpStep s) ((none : Option Nat), 0)).1 := by
    unfold findRegisteredParent
    simp only [hli]
    rw [if_neg (by rw [hne]; exact Bool.noConfusion)]
  have hpos2 : 0 < (cs.foldl (frpStep s) ((none : Option Nat), 0)).2 :=
    lt_of_lt_of_le hcpos (hmax c hcmem mc hmc)
  rcases hdec with h | ⟨r, l1, l2, hr1, hdecomp, _, hstrict⟩
  · rw [h] at hpos2
    exact absurd hpos2 (lt_irrefl 0)
  · obtain ⟨mr, hmr, hmrt⟩ := hseed r hr1
    refine ⟨r, mr, l1, l2, by rw [hfr, hr1], hmr, hdecomp, ?_, ?_⟩
    · intro x hx mx hmx
      rw [hmrt]
      exact hmax x hx mx hmx
    · intro x hx mx hmx
      rw [hmrt]
      exact hstrict x hx mx hmx

/-- Two same-id registrations, the second strictly more recent. -/
def sRecent : FMState :=
  doRegister flatDom 9 (basicOptions "P" none) 2
    (doRegister flatDom 7 (basicOptions "P" none) 1 initialState)

/-- C6 witness: the amended theorem at a concrete bucket with distinct
times; conclusions delivered at the concrete state. -/
theorem C6_witness :
    ∃ r mr l1 l2, findRegisteredParent sRecent "P" = some r
      ∧ mapGet sRecent.elementRegistry r = some mr
      ∧ [1, 2] = l1 ++ r :: l2
      ∧ (∀ x ∈ [1, 2], ∀ mx, mapGet sRecent.elementRegistry x = some mx →
          mx.registrationTime ≤ mr.registrationTime)
      ∧ (∀ x ∈ l1, ∀ mx, mapGet sRecent.elementRegistry x = some mx →
          mx.registrationTime < mr.registrationTime) :=
  C6_findRegisteredParent_spec sRecent "P" [1, 2] rfl
    ⟨1, by simp, ⟨"P", none, [], 7, basicOptions "P" none⟩, rfl, by norm_num⟩

/-! ### Claim C4 -/

instance siblingOrderTotal (s : FMState) (sibs : List Nat) :
    IsTotal Nat (siblingOrder s sibs) := by
  constructor
  intro a b
  unfold siblingOrder
  rcases lt_trichotomy (tabIndexOf s a) (tabIndexOf s b) with h | h | h
  · exact Or.inl (Or.inl h)
  · rcases Nat.le_total (sibs.indexOf a) (sibs.indexOf b) with h2 | h2
    · exact Or.inl (Or.inr ⟨h, h2⟩)
    · exact Or.inr (Or.inr ⟨h.symm, h2⟩)
  · exact Or.inr (Or.inl h)

instance siblingOrderTrans (s : FMState) (sibs : List Nat) :
    IsTrans Nat (siblingOrder s sibs) := by
  constructor
  intro a b c hab hbc
  unfold siblingOrder at hab hbc ⊢
  rcases hab with h1 | ⟨h1e, h1i⟩ <;> rcases hbc with h2 | ⟨h2e, h2i⟩
  · exact Or.inl (lt_trans h1 h2)
  · exact Or.inl (h2e ▸ h1)
  · exact Or.inl (h1e ▸ h2)
  · exact Or.inr ⟨h1e.trans h2e, le_trans h1i h2i⟩

theorem sortSiblings_perm (s : FMState) (sibs : List Nat) :
    (sortSiblingsByTabOrder s sibs).Perm
      (sibs.filter (fun sibling =>
        match mapGet s.elementRegistry sibling with
        | some meta => !(meta.options.disabled.getD false)
        | none => false)) := by
  unfold sortSiblingsByTabOrder
  exact List.perm_insertionSort _ _

theorem sortSiblings_sorted (s : FMState) (sibs : List Nat) :
    List.Sorted (siblingOrder s sibs) (sortSiblingsByTabOrder s sibs) := by
  unfold sortSiblingsByTabOrder
  exact List.sorted_insertionSort _ _

theorem mem_sortSiblings_enabled (s : FMState) (sibs : List Nat) (x : Nat)
    (hx : x ∈ sortSiblingsByTabOrder s sibs) :
    ∃ mx, mapGet s.elementRegistry x = some mx
      ∧ mx.options.disabled.getD false = false := by
  have hxf := (sortSiblings_perm s sibs).mem_iff.mp hx
  have hpred := (List.mem_filter.mp hxf).2
  cases hmx : mapGet s.elementRegistry x with
  | none =>
    rw [hmx] at hpred
    exact Bool.noConfusion hpred
  | some mx =>
    rw [hmx] at hpred
    dsimp only at hpred
    refine ⟨mx, rfl, ?_⟩
    cases hd : mx.options.disabled.getD false
    · rfl
    · rw [hd] at hpred
      exact Bool.noConfusion hpred

/-- C4: with the active element's parent resolved, `focusSibling` works on
the parent's children filtered of disabled elements and sorted by tab index
with position in the children list (registration order) as secondary key;
when the active element is absent from that list nothing changes; when
present, movement goes to the adjacent index modulo the length (so the last
wraps to the first going forward, and the first to the last going
backward). -/
theorem C4_focusSibling (d : Dom) (s : FMState) (cur pe : Nat)
    (m pm : ElementMetadata)
    (hcur : s.currentElement = some cur)
    (hm : mapGet s.elementRegistry cur = some m)
    (hpe : m.parentElement = some pe)
    (hpm : mapGet s.elementRegistry pe = some pm) :
    (sortSiblingsByTabOrder s pm.children).Perm
        (pm.children.filter (fun sibling =>
          match mapGet s.elementRegistry sibling with
          | some meta => !(meta.options.disabled.getD false)
          | none => false)) ∧
    List.Sorted (siblingOrder s pm.children) (sortSiblingsByTabOrder s pm.children) ∧
    (cur ∉ sortSiblingsByTabOrder s pm.children →
      ∀ fwd, focusSibling d fwd s = s) ∧
    (cur ∈ sortSiblingsByTabOrder s pm.children →
      ∀ fwd, (focusSibling d fwd s).currentElement
        = some ((sortSiblingsByTabOrder s pm.children).getD
            (if fwd then
              ((sortSiblingsByTabOrder s pm.children).indexOf cur + 1)
                % (sortSiblingsByTabOrder s pm.children).length
            else
              ((sortSiblingsByTabOrder s pm.children).indexOf cur
                  + (sortSiblingsByTabOrder s pm.children).length - 1)
                % (sortSiblingsByTabOrder s pm.children).length) 0)) := by
  have hens : ensureRelationships d s cur = s :=
    ensureRelationships_resolved d s cur m hm (by rw [hpe]; rfl)
  refine ⟨sortSiblings_perm s pm.children, sortSiblings_sorted s pm.children, ?_, ?_⟩
  · intro hnmem fwd
    simp only [focusSibling, hcur, hens, hm, hpe, hpm]
    by_cases hemp : (sortSiblingsByTabOrder s pm.children).isEmpty = true
    · rw [if_pos hemp]
    · rw [if_neg hemp, if_neg hnmem]
  · intro hmem fwd
    have hn : 0 < (sortSiblingsByTabOrder s pm.children).length :=
      List.length_pos.mpr (List.ne_nil_of_mem hmem)
    have hemp : ¬((sortSiblingsByTabOrder s pm.children).isEmpty = true) := by
      cases hsort : sortSiblingsByTabOrder s pm.children
      · rw [hsort] at hn
        exact absurd hn (lt_irrefl 0)
      · exact fun h => Bool.noConfusion h
    simp only [focusSibling, hcur, hens, hm, hpe, hpm]
    rw [if_neg hemp, if_pos hmem]
    have hlt : (if fwd then
          ((sortSiblingsByTabOrder s pm.children).indexOf cur + 1)
            % (sortSiblingsByTabOrder s pm.children).length
        else
          ((sortSiblingsByTabOrder s pm.children).indexOf cur
              + (sortSiblingsByTabOrder s pm.children).length - 1)
            % (sortSiblingsByTabOrder s pm.children).length)
        < (sortSiblingsByTabOrder s pm.children).length := by
      split <;> exact Nat.mod_lt _ hn
    have htmem : (sortSiblingsByTabOrder s pm.children).getD
        (if fwd then
          ((sortSiblingsByTabOrder s pm.children).indexOf cur + 1)
            % (sortSiblingsByTabOrder s pm.children).length
        else
          ((sortSiblingsByTabOrder s pm.children).indexOf cur
              + (sortSiblingsByTabOrder s pm.children).length - 1)
            % (sortSiblingsByTabOrder s pm.children).length) 0
        ∈ sortSiblingsByTabOrder s pm.children := by
      rw [List.getD_eq_getElem _ _ hlt]
      exact List.getElem_mem _
    obtain ⟨mt, hmt, _⟩ := mem_sortSiblings_enabled s pm.children _ htmem
    exact setActive_elem_current d s _ (by rw [hmt]; rfl)

def sFamAct : FMState := setActive flatDom (FocusTarget.elem 13) sFam

def mFam13 : ElementMetadata := ⟨"kid", some 10, [], 4, famOptions 2⟩

/-- C4 witness: three children at tab indexes 0, 1, 2; from the last child
(tab 2), `focusSibling(true)` wraps to the first (element 11). -/
theorem C4_witness :
    (13 : Nat) ∈ sortSiblingsByTabOrder sFamAct mFamPar.children ∧
    (focusSibling flatDom true sFamAct).currentElement = some 11 := by
  refine ⟨by decide, ?_⟩
  have h := (C4_focusSibling flatDom sFamAct 13 10 mFam13 mFamPar rfl rfl rfl rfl).2.2.2
    (by decide) true
  rw [h]
  rfl

/-! ### Claim C7 -/

theorem unregisterElement_idem (s : FMState) (e : Nat) :
    unregisterElement (unregisterElement s e) e = unregisterElement s e :=
  unregisterElement_not_registered _ e (unregisterElement_lookup_self s e)

theorem doRegisterMid_ue (d : Dom) (now : Nat) (opts : FocusableOptions) (e : Nat)
    (s : FMState) :
    doRegisterMid d now opts e (unregisterElement s e) = doRegisterMid d now opts e s := by
  unfold doRegisterMid
  rw [unregisterElement_idem]

theorem doRegister_ue (d : Dom) (now : Nat) (opts : FocusableOptions) (e : Nat)
    (s : FMState) :
    doRegister d now opts e (unregisterElement s e) = doRegister d now opts e s := by
  unfold doRegister
  rw [doRegisterMid_ue]

theorem mapGet_eq_none_iff_keys {κ α : Type} [DecidableEq κ] (m : List (κ × α)) (k : κ) :
    mapGet m k = none ↔ k ∉ m.map Prod.fst := by
  induction m with
  | nil => simp [mapGet_nil]
  | cons hd tl ih =>
    obtain ⟨a, b⟩ := hd
    by_cases hak : a = k
    · subst hak
      simp [mapGet_cons]
    · have hka : ¬(k = a) := fun h => hak h.symm
      simp [mapGet_cons, hak, ih, hka]

theorem mapSet_keys_of_present {κ α : Type} [DecidableEq κ] (m : List (κ × α)) (k : κ)
    (v : α) (h : (mapGet m k).isSome = true) :
    (mapSet m k v).map Prod.fst = m.map Prod.fst := by
  unfold mapSet
  rw [if_pos h, List.map_map]
  apply List.map_congr_left
  intro p _
  by_cases hpk : p.1 = k <;> simp [hpk]

theorem mapSet_keys_of_absent {κ α : Type} [DecidableEq κ] (m : List (κ × α)) (k : κ)
    (v : α) (h : mapGet m k = none) :
    (mapSet m k v).map Prod.fst = m.map Prod.fst ++ [k] := by
  unfold mapSet
  rw [h]
  simp

theorem mapDelete_count_self {κ α : Type} [DecidableEq κ] (m : List (κ × α)) (k : κ) :
    ((mapDelete m k).map Prod.fst).count k = 0 := by
  rw [List.count_eq_zero]
  intro hmem
  obtain ⟨p, hp, hpk⟩ := List.mem_map.mp hmem
  have := (List.mem_filter.mp hp).2
  rw [hpk] at this
  simp at this

theorem orphanFold_keys : ∀ (kids : List Nat) (reg : List (Nat × ElementMetadata)),
    (kids.foldl orphanStep reg).map Prod.fst = reg.map Prod.fst := by
  intro kids
  induction kids with
  | nil => intro reg; rfl
  | cons c rest ih =>
    intro reg
    rw [List.foldl_cons]
    cases hc : mapGet reg c with
    | none =>
      rw [show orphanStep reg c = reg by simp [orphanStep, hc]]
      exact ih reg
    | some cm =>
      rw [show orphanStep reg c = mapSet reg c (setParentElement cm none) by
        simp [orphanStep, hc]]
      rw [ih, mapSet_keys_of_present _ c _ (by rw [hc]; rfl)]

theorem linkReg_keys (ne : Nat) (reg : List (Nat × ElementMetadata)) (c : Nat) :
    (linkReg ne reg c).map Prod.fst = reg.map Prod.fst := by
  cases hc : mapGet reg c with
  | none => rw [linkReg_eq_none ne reg c hc]
  | some cm =>
    cases hpn : mapGet (mapSet reg c (setParentElement cm (some ne))) ne with
    | none =>
      rw [linkReg_some_none ne reg c cm hc hpn]
      exact mapSet_keys_of_present _ c _ (by rw [hc]; rfl)
    | some pm =>
      rw [linkReg_some_some ne reg c cm pm hc hpn]
      rw [mapSet_keys_of_present _ ne _ (by rw [hpn]; rfl)]
      exact mapSet_keys_of_present _ c _ (by rw [hc]; rfl)

theorem resolveFold_keys (d : Dom) (nid : Focusable) (ne : Nat) :
    ∀ (pend : List PendingRelationship)
      (acc : List (Nat × ElementMetadata) × List PendingRelationship),
    ((pend.foldl (resolvePendingStep d nid ne) acc).1).map Prod.fst
      = acc.1.map Prod.fst := by
  intro pend
  induction pend with
  | nil => intro acc; rfl
  | cons p rest ih =>
    intro acc
    rw [List.foldl_cons, resolvePendingStep_char]
    by_cases hr : resolvesB d nid ne acc.1 p
    · rw [if_pos hr, ih]
      exact linkReg_keys ne acc.1 p.childElement
    · rw [if_neg hr, ih]

theorem unregisterElement_count_self (s : FMState) (e : Nat) :
    (((unregisterElement s e).elementRegistry).map Prod.fst).count e = 0 := by
  cases hme : mapGet s.elementRegistry e with
  | none =>
    rw [unregisterElement_not_registered s e hme]
    rw [List.count_eq_zero]
    exact (mapGet_eq_none_iff_keys s.elementRegistry e).mp hme
  | some me =>
    unfold unregisterElement
    simp only [hme]
    exact mapDelete_count_self _ e

theorem doRegister_count_self (d : Dom) (now : Nat) (opts : FocusableOptions) (e : Nat)
    (s : FMState) :
    (((doRegister d now opts e s).elementRegistry).map Prod.fst).count e = 1 := by
  rw [doRegister_registry]
  have h1 : ((resolvePendingRelationships d (doRegisterMid d now opts e s)
      opts.id e).elementRegistry).map Prod.fst
      = ((doRegisterMid d now opts e s).elementRegistry).map Prod.fst :=
    resolveFold_keys d opts.id e _ _
  rw [h1]
  have habs : mapGet (unregisterElement s e).elementRegistry e = none :=
    unregisterElement_lookup_self s e
  unfold doRegisterMid
  cases hpe : drParent d opts e (unregisterElement s e) with
  | none =>
    simp only [hpe]
    rw [mapSet_keys_of_absent _ e _ habs]
    rw [List.count_append]
    have := unregisterElement_count_self s e
    rw [this]
    simp
  | some pe =>
    simp only [hpe]
    cases hpm : mapGet (mapSet (unregisterElement s e).elementRegistry e
        ⟨opts.id, some pe, [], now, opts⟩) pe with
    | none =>
      rw [mapSet_keys_of_absent _ e _ habs, List.count_append]
      have := unregisterElement_count_self s e
      rw [this]
      simp
    | some pm =>
      rw [mapSet_keys_of_present _ pe _ (by rw [hpm]; rfl)]
      rw [mapSet_keys_of_absent _ e _ habs, List.count_append]
      have := unregisterElement_count_self s e
      rw [this]
      simp

theorem doRegister_lookup_self (d : Dom) (now : Nat) (opts : FocusableOptions) (e : Nat)
    (s : FMState) :
    ∃ m, mapGet (doRegister d now opts e s).elementRegistry e = some m
      ∧ m.logicalId = opts.id ∧ m.registrationTime = now ∧ m.options = opts := by
  have hmid := doRegisterMid_lookup_self d now opts e s
  have hso : (mapGet (doRegister d now opts e s).elementRegistry e).isSome = true := by
    rw [doRegister_registry, resolvePR_registry_isSome, hmid]
    rfl
  obtain ⟨m2, hm2⟩ := Option.isSome_iff_exists.mp hso
  have hreg : mapGet (resolvePendingRelationships d (doRegisterMid d now opts e s)
      opts.id e).elementRegistry e = some m2 := by
    rw [← doRegister_registry]
    exact hm2
  obtain ⟨m, hm, hcore⟩ := resolveFold_fields d opts.id e
    (doRegisterMid d now opts e s).pendingRelationships
    ((doRegisterMid d now opts e s).elementRegistry, []) e m2 hreg
  rw [hmid] at hm
  injection hm with hm3
  refine ⟨m2, hm2, ?_, ?_, ?_⟩
  · rw [hcore.1, ← hm3]
  · rw [hcore.2.1, ← hm3]
  · rw [hcore.2.2, ← hm3]

theorem mapGet_some_mem {κ α : Type} [DecidableEq κ] {m : List (κ × α)} {k : κ} {v : α}
    (h : mapGet m k = some v) : (k, v) ∈ m := by
  unfold mapGet at h
  cases hf : m.find? (fun p => p.1 == k) with
  | none =>
    rw [hf] at h
    exact Option.noConfusion h
  | some p =>
    rw [hf] at h
    have hmem := List.mem_of_find?_eq_some hf
    have hpk := List.find?_some hf
    have hpk2 : p.1 = k := by
      exact beq_iff_eq.mp hpk
    have hv : p.2 = v := by
      injection h
    have : p = (k, v) := by
      obtain ⟨p1, p2⟩ := p
      simp only at hpk2 hv
      rw [hpk2, hv]
    rw [← this]
    exact hmem

theorem mem_mapSet {κ α : Type} [DecidableEq κ] {m : List (κ × α)} {k : κ} {v : α}
    {b : κ × α} (h : b ∈ mapSet m k v) : b = (k, v) ∨ b ∈ m := by
  unfold mapSet at h
  by_cases hp : (mapGet m k).isSome = true
  · rw [if_pos hp] at h
    obtain ⟨p, hpm, hpe⟩ := List.mem_map.mp h
    by_cases hpk : p.1 = k
    · rw [if_pos hpk] at hpe
      exact Or.inl hpe.symm
    · rw [if_neg hpk] at hpe
      exact Or.inr (hpe ▸ hpm)
  · rw [if_neg hp] at h
    rcases List.mem_append.mp h with h2 | h2
    · exact Or.inr h2
    · exact Or.inl (List.mem_singleton.mp h2)

theorem bucketsWF_mapSet {m : List (Focusable × List Nat)} {k : Focusable} {v : List Nat}
    (h : ∀ b ∈ m, (b.2 : List Nat).Nodup) (hv : v.Nodup) :
    ∀ b ∈ mapSet m k v, (b.2 : List Nat).Nodup := by
  intro b hb
  rcases mem_mapSet hb with hbe | hbm
  · rw [hbe]
    exact hv
  · exact h b hbm

theorem bucketsWF_mapDelete {m : List (Focusable × List Nat)} {k : Focusable}
    (h : ∀ b ∈ m, (b.2 : List Nat).Nodup) :
    ∀ b ∈ mapDelete m k, (b.2 : List Nat).Nodup := by
  intro b hb
  exact h b (List.mem_of_mem_filter hb)

theorem bucketsWF_removeFromLogicalIndex {li : List (Focusable × List Nat)}
    {lid : Focusable} {e : Nat} (h : ∀ b ∈ li, (b.2 : List Nat).Nodup) :
    ∀ b ∈ removeFromLogicalIndex li lid e, (b.2 : List Nat).Nodup := by
  unfold removeFromLogicalIndex
  cases harr : mapGet li lid with
  | none => exact h
  | some arr =>
    have harrn : arr.Nodup := h (lid, arr) (mapGet_some_mem harr)
    exact bucketsWF_mapSet h (harrn.erase e)

theorem bucketsWF_addToLogicalIndex {li : List (Focusable × List Nat)}
    {lid : Focusable} {e : Nat} (h : ∀ b ∈ li, (b.2 : List Nat).Nodup) :
    ∀ b ∈ addToLogicalIndex li lid e, (b.2 : List Nat).Nodup := by
  unfold addToLogicalIndex
  cases harr : mapGet li lid with
  | none => exact h
  | some arr =>
    have harrn : arr.Nodup := h (lid, arr) (mapGet_some_mem harr)
    by_cases hmem : e ∈ arr
    · simp only [hmem, if_true]
      exact h
    · simp only [hmem, if_false]
      refine bucketsWF_mapSet h ?_
      simp [List.nodup_append, harrn, hmem]

theorem bucketsWF_unregisterElement {s : FMState} {e : Nat}
    (h : ∀ b ∈ s.logicalIndex, (b.2 : List Nat).Nodup) :
    ∀ b ∈ (unregisterElement s e).logicalIndex, (b.2 : List Nat).Nodup := by
  cases hme : mapGet s.elementRegistry e with
  | none =>
    rw [unregisterElement_not_registered s e hme]
    exact h
  | some me =>
    unfold unregisterElement
    simp only [hme]
    have h1 := @bucketsWF_removeFromLogicalIndex s.logicalIndex me.logicalId e h
    cases harr : mapGet (removeFromLogicalIndex s.logicalIndex me.logicalId e)
        me.logicalId with
    | none => exact h1
    | some arr =>
      by_cases hemp : arr.isEmpty = true
      · simp only [hemp, if_true]
        exact bucketsWF_mapDelete h1
      · simp only [hemp, if_false]
        exact h1

theorem bucketsWF_doRegister {d : Dom} {now : Nat} {opts : FocusableOptions} {e : Nat}
    {s : FMState} (h : ∀ b ∈ s.logicalIndex, (b.2 : List Nat).Nodup) :
    ∀ b ∈ (doRegister d now opts e s).logicalIndex, (b.2 : List Nat).Nodup := by
  rw [doRegister_logicalIndex]
  unfold doRegisterMid
  have h0 := @bucketsWF_unregisterElement s e h
  have h1 : ∀ b ∈ (match mapGet (unregisterElement s e).logicalIndex opts.id with
      | some _ => (unregisterElement s e).logicalIndex
      | none => (unregisterElement s e).logicalIndex ++ [(opts.id, [])]),
      (b.2 : List Nat).Nodup := by
    cases hb : mapGet (unregisterElement s e).logicalIndex opts.id with
    | some arr => exact h0
    | none =>
      intro b hbm
      rcases List.mem_append.mp hbm with h2 | h2
      · exact h0 b h2
      · rw [List.mem_singleton.mp h2]
        exact List.nodup_nil
  exact bucketsWF_addToLogicalIndex h1

theorem addToLogicalIndex_lookup_other (li : List (Focusable × List Nat))
    (lid : Focusable) (e : Nat) (lid' : Focusable) (hne : lid' ≠ lid) :
    mapGet (addToLogicalIndex li lid e) lid' = mapGet li lid' := by
  unfold addToLogicalIndex
  cases hb : mapGet li lid with
  | none => rfl
  | some arr =>
    by_cases hmem : e ∈ arr
    · simp [hmem]
    · simp [hmem, mapGet_mapSet, hne]

theorem doRegisterMid_li_other (d : Dom) (now : Nat) (opts : FocusableOptions) (e : Nat)
    (s : FMState) (lid : Focusable) (hne : lid ≠ opts.id) :
    mapGet (doRegisterMid d now opts e s).logicalIndex lid
      = mapGet (unregisterElement s e).logicalIndex lid := by
  unfold doRegisterMid
  dsimp only
  cases hb : mapGet (unregisterElement s e).logicalIndex opts.id with
  | some arr =>
    simp only [hb]
    exact addToLogicalIndex_lookup_other _ _ _ _ hne
  | none =>
    simp only [hb]
    rw [addToLogicalIndex_lookup_other _ _ _ _ hne]
    rw [mapGet_append_absent _ _ _ _ hb]
    rw [if_neg hne]

theorem doRegisterMid_li_self (d : Dom) (now : Nat) (opts : FocusableOptions) (e : Nat)
    (s : FMState) (hwf : ∀ b ∈ s.logicalIndex, (b.2 : List Nat).Nodup) :
    ∃ arr, mapGet (doRegisterMid d now opts e s).logicalIndex opts.id = some arr
      ∧ e ∈ arr ∧ arr.Nodup := by
  have hwf0 := @bucketsWF_unregisterElement s e hwf
  unfold doRegisterMid
  dsimp only
  cases hb : mapGet (unregisterElement s e).logicalIndex opts.id with
  | none =>
    simp only [hb]
    have hb1 : mapGet ((unregisterElement s e).logicalIndex ++ [(opts.id, [])]) opts.id
        = some [] := by
      rw [mapGet_append_absent _ _ _ _ hb, if_pos rfl]
    unfold addToLogicalIndex
    rw [hb1]
    simp only [List.not_mem_nil, if_false]
    refine ⟨[e], ?_, ?_, ?_⟩
    · rw [mapGet_mapSet, if_pos rfl]
      rfl
    · exact List.mem_singleton.mpr rfl
    · exact List.nodup_singleton e
  | some arr =>
    simp only [hb]
    have harrn : arr.Nodup := hwf0 (opts.id, arr) (mapGet_some_mem hb)
    unfold addToLogicalIndex
    rw [hb]
    by_cases hmem : e ∈ arr
    · simp only [hmem, if_true]
      exact ⟨arr, hb, hmem, harrn⟩
    · simp only [hmem, if_false]
      refine ⟨arr ++ [e], ?_, ?_, ?_⟩
      · rw [mapGet_mapSet, if_pos rfl]
      · exact List.mem_append.mpr (Or.inr (List.mem_singleton.mpr rfl))
      · simp [List.nodup_append, harrn, hmem]

theorem unregisterElement_li_no_self (s : FMState) (e : Nat)
    (hwf : ∀ b ∈ s.logicalIndex, (b.2 : List Nat).Nodup)
    (me : ElementMetadata) (hme : mapGet s.elementRegistry e = some me) :
    ∀ arr, mapGet (unregisterElement s e).logicalIndex me.logicalId = some arr
      → e ∉ arr := by
  unfold unregisterElement
  simp only [hme]
  cases hb0 : mapGet s.logicalIndex me.logicalId with
  | none =>
    have hli1 : removeFromLogicalIndex s.logicalIndex me.logicalId e = s.logicalIndex := by
      unfold removeFromLogicalIndex
      rw [hb0]
    rw [hli1]
    simp only [hb0]
    intro arr harr
    exact Option.noConfusion harr
  | some arr0 =>
    have harr0n : arr0.Nodup := hwf (me.logicalId, arr0) (mapGet_some_mem hb0)
    have hli1 : removeFromLogicalIndex s.logicalIndex me.logicalId e
        = mapSet s.logicalIndex me.logicalId (arr0.erase e) := by
      unfold removeFromLogicalIndex
      rw [hb0]
    rw [hli1]
    have hlk : mapGet (mapSet s.logicalIndex me.logicalId (arr0.erase e)) me.logicalId
        = some (arr0.erase e) := by
      rw [mapGet_mapSet, if_pos rfl]
    rw [hlk]
    by_cases hemp : (arr0.erase e).isEmpty = true
    · simp only [hemp, if_true]
      intro arr harr
      rw [mapGet_mapDelete, if_pos rfl] at harr
      exact Option.noConfusion harr
    · simp only [hemp, if_false]
      intro arr harr
      rw [if_neg Bool.false_ne_true] at harr
      rw [hlk] at harr
      have harr2 : arr = arr0.erase e := by
        injection harr.symm
      rw [harr2]
      intro hmem
      have := (harr0n.mem_erase_iff).mp hmem
      exact this.1 rfl

/-! ### Claim C7 -/

/-- A state with element 1 registered under "a", whose declared parent "P"
is unresolved, so one pending relationship is queued. -/
def sReg1 : FMState := doRegister flatDom 3 (basicOptions "a" (some "P")) 1 initialState

/-- C7 counterexample: re-registering element 1 leaves the stale pending
relationship (child 1, parent id "P") in the queue, whereas a public
`unregister` of element 1 followed by the same registration leaves the queue
empty.  The second register is therefore NOT equivalent to a full public
unregister followed by a fresh registration: `doRegister` only runs the
internal `unregisterElement`, which never touches the pending queue, while
`unregister` additionally prunes it. -/
theorem C7_counterexample :
    (doRegister flatDom 4 (basicOptions "a" none) 1 sReg1).pendingRelationships
      = [⟨1, "P", 3⟩]
    ∧ (doRegister flatDom 4 (basicOptions "a" none) 1
        (unregister "a" (some 1) sReg1)).pendingRelationships = [] := by
  constructor <;> rfl

/-- C7 (amended): for any two successive registrations of the same element
(in any state whose logical-index buckets are duplicate-free), after the
second call (1) the registry holds exactly one entry for the element,
(2) that entry carries the second call's options, (3) the element occurs in
the bucket of the second call's logical id, which is duplicate-free (hence
at most one occurrence), (4) when the logical id changed, the element no
longer occurs in the first call's bucket, and (5) the second call is
equivalent to the internal `unregisterElement` (which does not prune the
pending queue — NOT the public `unregister`, which does) followed by a fresh
registration. -/
theorem C7_reregister_idempotent (d : Dom) (now1 now2 : Nat)
    (o1 o2 : FocusableOptions) (e : Nat) (s : FMState)
    (hwf : ∀ b ∈ s.logicalIndex, (b.2 : List Nat).Nodup) :
    (((doRegister d now2 o2 e (doRegister d now1 o1 e s)).elementRegistry).map
        Prod.fst).count e = 1
    ∧ (∃ m, mapGet (doRegister d now2 o2 e
          (doRegister d now1 o1 e s)).elementRegistry e = some m ∧ m.options = o2)
    ∧ (∃ arr, mapGet (doRegister d now2 o2 e
          (doRegister d now1 o1 e s)).logicalIndex o2.id = some arr
        ∧ e ∈ arr ∧ arr.Nodup)
    ∧ (o1.id ≠ o2.id → ∀ arr,
        mapGet (doRegister d now2 o2 e
          (doRegister d now1 o1 e s)).logicalIndex o1.id = some arr → e ∉ arr)
    ∧ doRegister d now2 o2 e (unregisterElement (doRegister d now1 o1 e s) e)
        = doRegister d now2 o2 e (doRegister d now1 o1 e s) := by
  have hwf1 : ∀ b ∈ (doRegister d now1 o1 e s).logicalIndex, (b.2 : List Nat).Nodup :=
    bucketsWF_doRegister hwf
  refine ⟨doRegister_count_self d now2 o2 e _, ?_, ?_, ?_, doRegister_ue d now2 o2 e _⟩
  · obtain ⟨m, hm, _, _, hopts⟩ := doRegister_lookup_self d now2 o2 e
      (doRegister d now1 o1 e s)
    exact ⟨m, hm, hopts⟩
  · rw [doRegister_logicalIndex]
    exact doRegisterMid_li_self d now2 o2 e _ hwf1
  · intro hne arr harr
    rw [doRegister_logicalIndex] at harr
    rw [doRegisterMid_li_other d now2 o2 e _ o1.id hne] at harr
    obtain ⟨m1, hm1, hid1, _, _⟩ := doRegister_lookup_self d now1 o1 e s
    have := unregisterElement_li_no_self (doRegister d now1 o1 e s) e hwf1 m1 hm1 arr
    rw [hid1] at this
    exact this harr

/-- C7 witness: the amended theorem at a concrete pair of registrations of
element 1, first under id "a", then under id "b"; after the second call the
registry holds one entry for 1 carrying the new options, the "b" bucket holds
1 exactly once, and the "a" bucket no longer holds it. -/
theorem C7_witness :
    (((doRegister flatDom 8 (basicOptions "b" none) 1
        (doRegister flatDom 7 (basicOptions "a" none) 1
          initialState)).elementRegistry).map Prod.fst).count 1 = 1
    ∧ (∃ m, mapGet (doRegister flatDom 8 (basicOptions "b" none) 1
          (doRegister flatDom 7 (basicOptions "a" none) 1
            initialState)).elementRegistry 1 = some m
        ∧ m.options = basicOptions "b" none)
    ∧ (∃ arr, mapGet (doRegister flatDom 8 (basicOptions "b" none) 1
          (doRegister flatDom 7 (basicOptions "a" none) 1
            initialState)).logicalIndex (basicOptions "b" none).id = some arr
        ∧ 1 ∈ arr ∧ arr.Nodup)
    ∧ ((basicOptions "a" none).id ≠ (basicOptions "b" none).id → ∀ arr,
        mapGet (doRegister flatDom 8 (basicOptions "b" none) 1
          (doRegister flatDom 7 (basicOptions "a" none) 1
            initialState)).logicalIndex (basicOptions "a" none).id = some arr
          → 1 ∉ arr)
    ∧ doRegister flatDom 8 (basicOptions "b" none) 1
        (unregisterElement (doRegister flatDom 7 (basicOptions "a" none) 1
          initialState) 1)
        = doRegister flatDom 8 (basicOptions "b" none) 1
            (doRegister flatDom 7 (basicOptions "a" none) 1 initialState) :=
  C7_reregister_idempotent flatDom 7 8 (basicOptions "a" none) (basicOptions "b" none)
    1 initialState (by intro b hb; simp [initialState] at hb)

/-- Options for a disabled element under id "z". -/
def optDis : FocusableOptions := ⟨"z", none, none, none, none, some true, false, false, false⟩

/-- Options for an enabled, priority-1 element under id "z". -/
def optEn : FocusableOptions := ⟨"z", none, none, some 1, none, none, false, false, false⟩

/-- Two elements under id "z": 20 disabled, 21 enabled with priority 1. -/
def sC3 : FMState :=
  doRegister flatDom 2 optEn 21 (doRegister flatDom 1 optDis 20 initialState)

/-- C3 witness: the theorem at a concrete state with a disabled element 20
and an enabled priority-1 element 21 under the same id; `setActive "z"`
selects 21. -/
theorem C3_witness :
    (setActive flatDom (FocusTarget.id "z") sC3).currentElement = some 21 :=
  C3_candidate_selection.2.2.2 flatDom sC3 "z" 20 21 ⟨"z", none, [], 1, optDis⟩
    ⟨"z", none, [], 2, optEn⟩ (Or.inl (by rfl)) (by rfl) (by rfl) (by rfl)
    (by rfl) (by rfl)
